import Mathlib

/-!
# PRBS control plane and command interpreter

A shallow embedding of `sw/ps/src/led_blink_uart_prbs_cli.c`.

* Machine integers are natural numbers; a truncating conversion of the C
  source is written as an explicit `% 2 ^ n`.
* The file-scope variables `g_mode` and `g_enable` are the fields of `State`;
  every register access and every `xil_printf` call is appended, in program
  order, to `State.trace`.
* The value a register read returns is supplied by an oracle `Hw`, indexed by
  the number of events logged so far, so that the hardware may answer every
  single read with any value.
* A C string is the list of its characters before the terminating NUL.
* `strtoul`, `strcmp` and `strtok` belong to the C library; they are modelled
  from ISO C.  The width of `unsigned long` is the parameter `w`.
-/

namespace PrbsCli

/-! ## Register map and bit fields -/

def REG_CTRL : Nat := 0x00
def REG_STATUS : Nat := 0x04
def REG_SEED : Nat := 0x08
def REG_FRMLEN : Nat := 0x0C
def REG_BYTECNT : Nat := 0x18
def REG_BITCNT : Nat := 0x1C

def CTRL_ENABLE : Nat := 1 <<< 0
def CTRL_SW_RESET : Nat := 1 <<< 2
def CTRL_MODE_SH : Nat := 4
/-- The macro `CTRL_MODE(m)`: `(uint32_t)(m) << CTRL_MODE_SH`, a 32-bit shift. -/
def CTRL_MODE (m : Nat) : Nat := ((m % 2 ^ 32) <<< CTRL_MODE_SH) % 2 ^ 32
def CTRL_CLEAR : Nat := 1 <<< 15

def ST_RUNNING : Nat := 1 <<< 0
def ST_DONE : Nat := 1 <<< 8

def GPIO_DATA_OFFSET : Nat := 0x0
def GPIO_TRI_OFFSET : Nat := 0x4
def LED_ON : Nat := 1
def LED_OFF : Nat := 0

/-! ## Observable events and program state -/

/-- The texts the program prints, one constructor per `xil_printf` call site
(the three start-up lines are one `banner`, the nine lines of `print_help`
one `help`); the constructor arguments are the values the format consumes. -/
inductive Msg where
  | banner
  | help
  | status (running done mode enable frame bytecnt bitcnt : Nat)
  | sw_reset
  | clear_counters
  | done_cleared
  | unknown_usage
  | newline
  | prompt
  | bs_echo
  | echo (c : Nat)
  | running
  | frame_done (bc : Nat)
  deriving DecidableEq

/-- One externally visible action. `wr`/`rd` are accesses at `PRBS_BASE+off`,
`gpio` is a store at `LED_BASE+off`. -/
inductive Event where
  | wr (off v : Nat)
  | rd (off v : Nat)
  | gpio (off v : Nat)
  | usleep (us : Nat)
  | print (m : Msg)
  deriving DecidableEq

/-- The shadow configuration `g_mode`, `g_enable` and the log of actions. -/
structure State where
  g_mode : Nat
  g_enable : Nat
  trace : List Event
  deriving DecidableEq

/-- Read oracle: `hw t off` is what a load from `PRBS_BASE+off` returns when
`t` events have been logged. -/
abbrev Hw := Nat → Nat → Nat

/-- The static initialisers `g_mode = 3`, `g_enable = 1`. -/
def init : State := { g_mode := 3, g_enable := 1, trace := [] }

def emit (e : Event) (s : State) : State := { s with trace := s.trace ++ [e] }

def xil_printf (m : Msg) (s : State) : State := emit (Event.print m) s

/-! ## MMIO helpers -/

def wr (off v : Nat) (s : State) : State := emit (Event.wr off v) s

def rd (hw : Hw) (off : Nat) (s : State) : Nat × State :=
  let v := hw s.trace.length off % 2 ^ 32
  (v, emit (Event.rd off v) s)

/-! ## PRBS control helpers -/

/-- The word `write_ctrl` assembles from its four arguments. -/
def ctrl_word (en mode swr clr : Nat) : Nat :=
  (if en ≠ 0 then CTRL_ENABLE else 0) ||| CTRL_MODE mode
    ||| (if swr ≠ 0 then CTRL_SW_RESET else 0) ||| (if clr ≠ 0 then CTRL_CLEAR else 0)

def write_ctrl (en mode swr clr : Nat) (s : State) : State :=
  wr REG_CTRL (ctrl_word en mode swr clr) s

def prbs_enable (en : Nat) (s : State) : State :=
  let s1 := { s with g_enable := if en ≠ 0 then 1 else 0 }
  write_ctrl s1.g_enable s1.g_mode 0 0 s1

def prbs_reset (s : State) : State := write_ctrl s.g_enable s.g_mode 1 0 s

def prbs_clear (s : State) : State := write_ctrl s.g_enable s.g_mode 0 1 s

def prbs_set_mode (mode : Nat) (s : State) : State :=
  let s1 := { s with g_mode := mode &&& 3 }
  write_ctrl s1.g_enable s1.g_mode 1 0 s1

/-- The parameter is a `uint16_t`: the argument is converted on entry. -/
def prbs_set_frame (fl : Nat) (s : State) : State := wr REG_FRMLEN (fl % 2 ^ 16) s

def prbs_set_seed (sd : Nat) (s : State) : State := wr REG_SEED (sd &&& 0x7FFFFFFF) s

def print_status (hw : Hw) (s : State) : State :=
  let r1 := rd hw REG_STATUS s
  let r2 := rd hw REG_BYTECNT r1.2
  let r3 := rd hw REG_BITCNT r2.2
  let r4 := rd hw REG_FRMLEN r3.2
  xil_printf
    (Msg.status (if r1.1 &&& ST_RUNNING ≠ 0 then 1 else 0) (if r1.1 &&& ST_DONE ≠ 0 then 1 else 0)
      r4.2.g_mode r4.2.g_enable r4.1 r2.1 r3.1) r4.2

/-! ## C library: `strtoul`, `strtok` -/

/-- The C-locale `isspace`. -/
def isspace (c : Char) : Bool :=
  c == ' ' || c == '\t' || c == '\n' || c == '\x0b' || c == '\x0c' || c == '\r'

/-- Value of a character as a digit, letters counting from ten. -/
def digitVal (c : Char) : Option Nat :=
  if '0' ≤ c ∧ c ≤ '9' then some (c.toNat - '0'.toNat)
  else if 'a' ≤ c ∧ c ≤ 'z' then some (c.toNat - 'a'.toNat + 10)
  else if 'A' ≤ c ∧ c ≤ 'Z' then some (c.toNat - 'A'.toNat + 10)
  else none

/-- The exact value of the longest run of digits of `base` that starts the
string, continuing from `acc`; `acc` itself when there is none. -/
def accDigits (base : Nat) : Nat → List Char → Nat
  | acc, [] => acc
  | acc, c :: cs =>
    match digitVal c with
    | some d => if d < base then accDigits base (acc * base + d) cs else acc
    | none => acc

/-- Strip an optional sign; the flag says whether it was a minus. -/
def stripSign (s : List Char) : Bool × List Char :=
  if s.head? = some '-' then (true, s.tail)
  else if s.head? = some '+' then (false, s.tail)
  else (false, s)

/-- Base selection of `strtoul`: with `base` 0 or 16 a leading `0x`/`0X` is
skipped and the base is 16; otherwise base 0 means 8 after a leading `0` and
10 in all other cases. -/
def pickBase (base : Nat) (s : List Char) : Nat × List Char :=
  if (base = 0 ∨ base = 16) ∧ s.head? = some '0'
      ∧ (s.tail.head? = some 'x' ∨ s.tail.head? = some 'X') then (16, s.tail.tail)
  else if base = 0 then (if s.head? = some '0' then 8 else 10, s)
  else (base, s)

/-- ISO C `strtoul(s, NULL, base)` for an `unsigned long` of `w` bits: white
space is skipped, a sign and a base prefix are accepted, the longest digit run
is converted; a value above `ULONG_MAX` yields `ULONG_MAX`, a minus sign
negates in the return type, no digits yield 0. -/
def strtoul (w : Nat) (s : List Char) (base : Nat) : Nat :=
  let sg := stripSign (s.dropWhile isspace)
  let pb := pickBase base sg.2
  let n := accDigits pb.1 0 pb.2
  if n > 2 ^ w - 1 then 2 ^ w - 1
  else if sg.1 then (2 ^ w - n) % 2 ^ w
  else n

/-- The delimiter set `" \t\r\n"` passed to `strtok`. -/
def isDelim (c : Char) : Bool := c == ' ' || c == '\t' || c == '\r' || c == '\n'

/-- The successive results of `strtok(line, " \t\r\n")`, `strtok(NULL, ...)`,
...: the maximal delimiter-free runs of the line, in order. `cur` holds the
run being scanned, most recent character first. -/
def strtokAll : List Char → List Char → List (List Char)
  | [], cur => if cur = [] then [] else [cur.reverse]
  | c :: cs, cur =>
    if isDelim c then
      (if cur = [] then strtokAll cs [] else cur.reverse :: strtokAll cs [])
    else strtokAll cs (c :: cur)

/-! ## Command-line interpreter -/

def parse_mode (w : Nat) (s : List Char) : Nat :=
  if s = "7".toList then 0
  else if s = "15".toList then 1
  else if s = "23".toList then 2
  else if s = "31".toList then 3
  else
    let v := strtoul w s 0 % 2 ^ 32
    if v ≤ 3 then v else 3

def parse_u32 (w : Nat) (s : List Char) : Nat :=
  strtoul w s
    (if s.getD 0 '\x00' = '0' ∧ (s.getD 1 '\x00' = 'x' ∨ s.getD 1 '\x00' = 'X') then 16 else 10)
    % 2 ^ 32

def print_help (s : State) : State := xil_printf Msg.help s

def handle_line (w : Nat) (hw : Hw) (line : List Char) (s : State) : State :=
  let argv := (strtokAll line []).take 4
  let argc := argv.length
  let argv0 := argv.getD 0 []
  let argv1 := argv.getD 1 []
  if argc = 0 then s
  else if argv0 = "help".toList then print_help s
  else if argv0 = "status".toList then print_status hw s
  else if argv0 = "enable".toList ∧ argc ≥ 2 then
    print_status hw (prbs_enable (strtoul w argv1 0 % 2 ^ 32) s)
  else if argv0 = "mode".toList ∧ argc ≥ 2 then
    print_status hw (prbs_set_mode (parse_mode w argv1) s)
  else if argv0 = "frame".toList ∧ argc ≥ 2 then
    print_status hw (prbs_set_frame (strtoul w argv1 0 % 2 ^ 16) s)
  else if argv0 = "seed".toList ∧ argc ≥ 2 then
    print_status hw (prbs_set_seed (parse_u32 w argv1) s)
  else if argv0 = "reset".toList then xil_printf Msg.sw_reset (prbs_reset s)
  else if argv0 = "clear".toList then xil_printf Msg.clear_counters (prbs_clear s)
  else if argv0 = "doneclr".toList then xil_printf Msg.done_cleared (wr REG_STATUS ST_DONE s)
  else xil_printf Msg.unknown_usage s

/-! ## The main program -/

/-- The locals of `main`: the controller state with the log, the line buffer
`buf[0..idx)` (so `idx` is `buf.length`), the LED level and the
`printed_running` flag. -/
structure Cli where
  st : State
  buf : List Char
  led : Nat
  printed_running : Nat

def gpio_out (off v : Nat) (s : State) : State := emit (Event.gpio off v) s

/-- The body of `main` before the loop. -/
def startup (s : State) : State :=
  let s1 := xil_printf Msg.banner s
  let s2 := gpio_out GPIO_TRI_OFFSET 0 s1
  let s3 := { s2 with g_mode := 3, g_enable := 1 }
  let s4 := prbs_set_seed 1 s3
  let s5 := prbs_set_frame 256 s4
  let s6 := write_ctrl s5.g_enable s5.g_mode 1 1 s5
  let s7 := print_help s6
  xil_printf Msg.prompt s7

def main_init : Cli :=
  { st := startup init, buf := [], led := LED_OFF, printed_running := 0 }

/-- The C string that starts at `buf[0]` once `buf[idx] = 0` is stored: the
buffered characters up to the first NUL. -/
def cstr (buf : List Char) : List Char := buf.takeWhile (fun c => c ≠ '\x00')

/-- One turn of the inner `for (;;)` loop for a received value `c ≥ 0`. -/
def feed (w : Nat) (hw : Hw) (c : Nat) (m : Cli) : Cli :=
  if c = 13 ∨ c = 10 then
    let s1 := xil_printf Msg.newline m.st
    let s2 := handle_line w hw (cstr m.buf) s1
    { m with st := xil_printf Msg.prompt s2, buf := [] }
  else if c = 0x7F ∨ c = 0x08 then
    if m.buf.length ≠ 0 then
      { m with st := xil_printf Msg.bs_echo m.st, buf := m.buf.dropLast }
    else m
  else if m.buf.length < 96 - 1 then
    { m with st := xil_printf (Msg.echo c) m.st, buf := m.buf ++ [Char.ofNat (c % 256)] }
  else m

/-- The LED heartbeat that opens an iteration of `while (1)`. -/
def heartbeat (m : Cli) : Cli :=
  let s1 := emit (Event.usleep 250000) m.st
  let led := if m.led = LED_OFF then LED_ON else LED_OFF
  { m with st := gpio_out GPIO_DATA_OFFSET led s1, led := led }

/-- The nonblocking UART line read; `input` lists the values `uart_getc_nb`
returns before it first answers -1. -/
def drain (w : Nat) (hw : Hw) (input : List Nat) (m : Cli) : Cli :=
  input.foldl (fun a c => feed w hw c a) m

/-- The status polling that closes an iteration: the once-only RUNNING notice
and the frame-done notice. -/
def poll_status (hw : Hw) (m1 : Cli) : Cli :=
  let r := rd hw REG_STATUS m1.st
  let m2 : Cli :=
    if r.1 &&& ST_RUNNING ≠ 0 ∧ m1.printed_running = 0 then
      { m1 with st := xil_printf Msg.running r.2, printed_running := 1 }
    else { m1 with st := r.2 }
  if r.1 &&& ST_DONE ≠ 0 then
    let b := rd hw REG_BYTECNT m2.st
    { m2 with st := xil_printf (Msg.frame_done b.1) (wr REG_STATUS ST_DONE b.2) }
  else m2

/-- One iteration of `while (1)`. -/
def poll (w : Nat) (hw : Hw) (input : List Nat) (m : Cli) : Cli :=
  poll_status hw (drain w hw input (heartbeat m))

/-- The program after the given loop iterations. -/
def run (w : Nat) (hw : Hw) (inputs : List (List Nat)) : Cli :=
  inputs.foldl (fun m i => poll w hw i m) main_init

/-! ## Observation helpers -/

/-- Bit `i` of a word, as 0 or 1. -/
def bit (v i : Nat) : Nat := v / 2 ^ i % 2

/-- The 2-bit mode field of a CTRL word, bits 5:4. -/
def mode_field (v : Nat) : Nat := v / 2 ^ CTRL_MODE_SH % 4

/-- The register stores of a log, as (offset, value) pairs in order. -/
def writes : List Event → List (Nat × Nat)
  | [] => []
  | Event.wr off v :: t => (off, v) :: writes t
  | _ :: t => writes t

/-- The values stored to CTRL, in order. -/
def ctrl_writes (t : List Event) : List Nat :=
  ((writes t).filter (fun p => p.1 = REG_CTRL)).map (fun p => p.2)

/-- A controller operation, for quantifying over call histories. -/
inductive Op where
  | enable (flag : Nat)
  | set_mode (m : Nat)
  | set_frame (n : Nat)
  | set_seed (sd : Nat)
  | reset
  | clear

def Op.apply : Op → State → State
  | Op.enable f, s => prbs_enable f s
  | Op.set_mode m, s => prbs_set_mode m s
  | Op.set_frame n, s => prbs_set_frame n s
  | Op.set_seed sd, s => prbs_set_seed sd s
  | Op.reset, s => prbs_reset s
  | Op.clear, s => prbs_clear s

/-- The state after startup followed by the calls of `h` in order. -/
def after (h : List Op) : State := h.foldl (fun s o => o.apply s) (startup init)

/-- The flag of the last `enable` call of a history, normalised to 0/1; the
start-up default 1 when there is none. -/
def lastEnable (h : List Op) : Nat :=
  h.foldl (fun d o => match o with
    | Op.enable f => if f = 0 then 0 else 1
    | _ => d) 1

/-- The argument of the last `set_mode` call of a history, reduced to two
bits; the start-up default 3 when there is none. -/
def lastMode (h : List Op) : Nat :=
  h.foldl (fun d o => match o with
    | Op.set_mode m => m % 4
    | _ => d) 3

/-! ## Numerals (specification side) -/

/-- Whether `c` is a digit of `base`. -/
def isDigitOf (base : Nat) (c : Char) : Bool :=
  match digitVal c with
  | some d => decide (d < base)
  | none => false

/-- Positional value of a string of digits. -/
def numVal (base : Nat) (ds : List Char) : Nat :=
  ds.foldl (fun a c => a * base + (digitVal c).getD 0) 0

/-- The number an unsigned numeral denotes under base auto-detection: `0x` or
`0X` followed by at least one hexadecimal digit, `0` followed by octal digits,
or decimal digits with a nonzero first one; `none` for any other string. -/
def numeralValue (s : List Char) : Option Nat :=
  if s.head? = some '0' then
    if s.tail.head? = some 'x' ∨ s.tail.head? = some 'X' then
      (if s.tail.tail ≠ [] ∧ s.tail.tail.all (isDigitOf 16) then some (numVal 16 s.tail.tail)
       else none)
    else (if s.tail.all (isDigitOf 8) then some (numVal 8 s.tail) else none)
  else if s ≠ [] ∧ s.all (isDigitOf 10) then some (numVal 10 s) else none

/-- The four symbolic polynomial names of the `mode` command. -/
def symbolicModes : List (List Char) := ["7".toList, "15".toList, "23".toList, "31".toList]

/-- The bookkeeping invariant of the CTRL log: the shadow mode fits its two
bits, the first CTRL store is the start-up word 0x8035, and no later CTRL
store sets both one-shot bits, sw_reset (bit 2) and clear (bit 15). -/
def CtrlInv (s : State) : Prop :=
  s.g_mode ≤ 3 ∧ ∃ rest, ctrl_writes s.trace = 0x8035 :: rest
    ∧ ∀ v ∈ rest, ¬ (bit v 2 = 1 ∧ bit v 15 = 1)

/-! ## Vocabulary and further observation helpers -/

/-- The command vocabulary of the dispatcher. -/
def vocabulary : List (List Char) :=
  ["help".toList, "status".toList, "enable".toList, "mode".toList, "frame".toList,
    "seed".toList, "reset".toList, "clear".toList, "doneclr".toList]

/-- The commands that take an argument token. -/
def argCommands : List (List Char) :=
  ["enable".toList, "mode".toList, "frame".toList, "seed".toList]

/-- The values stored to STATUS, in order. -/
def status_writes (t : List Event) : List Nat :=
  ((writes t).filter (fun p => p.1 = REG_STATUS)).map (fun p => p.2)

/-- The number the `seed` argument denotes when read as the specification
says: hexadecimal digits after a `0x` or `0X` prefix, decimal digits
otherwise; `none` for any other string. -/
def seedValue (a : List Char) : Option Nat :=
  if a.head? = some '0' ∧ (a.tail.head? = some 'x' ∨ a.tail.head? = some 'X') then
    (if a.tail.tail ≠ [] ∧ a.tail.tail.all (isDigitOf 16) then some (numVal 16 a.tail.tail)
     else none)
  else if a ≠ [] ∧ a.all (isDigitOf 10) then some (numVal 10 a) else none

/-- A received value that is neither a line terminator (CR, LF) nor a
backspace or delete. -/
def isOrdinary (c : Nat) : Bool := c != 13 && c != 10 && c != 0x7F && c != 0x08

/-- The number of "running" notices in a log. -/
def countRunning (t : List Event) : Nat := t.count (Event.print Msg.running)

/-- Whether an event is a frame-done notice. -/
def isFrameDone : Event → Bool
  | Event.print (Msg.frame_done _) => true
  | _ => false

/-- The number of frame-done notices in a log. -/
def countFrameDone (t : List Event) : Nat := (t.filter isFrameDone).length

/-- The events the program can log: any register read, GPIO store, sleep and
text, and of the register stores only those to SEED and FRAME_LEN, the store
of the done bit to STATUS, and CTRL words assembled by `ctrl_word` from an
enable flag and one-shot flags in 0..1 and a mode in 0..3. -/
inductive Producible : Event → Prop where
  | rd (off v : Nat) : Producible (Event.rd off v)
  | gpio (off v : Nat) : Producible (Event.gpio off v)
  | usleep (us : Nat) : Producible (Event.usleep us)
  | print (m : Msg) : Producible (Event.print m)
  | seed (v : Nat) : Producible (Event.wr REG_SEED v)
  | frmlen (v : Nat) : Producible (Event.wr REG_FRMLEN v)
  | done : Producible (Event.wr REG_STATUS ST_DONE)
  | ctrl (en mode swr clr : Nat) (he : en ≤ 1) (hm : mode ≤ 3) (hs : swr ≤ 1) (hc : clr ≤ 1) :
      Producible (Event.wr REG_CTRL (ctrl_word en mode swr clr))

/-- The invariant of the whole program: the shadow mode fits two bits, the
shadow enable one bit, and every logged event is producible. -/
def LogInv (s : State) : Prop :=
  s.g_mode ≤ 3 ∧ s.g_enable ≤ 1 ∧ ∀ e ∈ s.trace, Producible e

/-- The state of an iteration when its status polling starts: after the
heartbeat and the draining of the input. -/
def before_poll (w : Nat) (hw : Hw) (input : List Nat) (m : Cli) : Cli :=
  drain w hw input (heartbeat m)

/-- The STATUS value the status polling of an iteration reads. -/
def polled_status (w : Nat) (hw : Hw) (input : List Nat) (m : Cli) : Nat :=
  hw (before_poll w hw input m).st.trace.length REG_STATUS % 2 ^ 32

/-- The shape of a well-formed CTRL word: no bit outside the mask 0x8035 (bit
0 enable, bit 2 sw_reset, bits 5:4 mode, bit 15 clear), and the word is
assembled from an enable flag, a mode and one-shot flags within their ranges,
each of which its field of the word gives back. -/
def CtrlShape (v : Nat) : Prop :=
  v &&& 0x8035 = v
    ∧ ∃ en mode swr clr, en ≤ 1 ∧ mode ≤ 3 ∧ swr ≤ 1 ∧ clr ≤ 1
        ∧ v = ctrl_word en mode swr clr
        ∧ bit v 0 = en ∧ mode_field v = mode ∧ bit v 2 = swr ∧ bit v 15 = clr

/-- The number of lines with first token `doneclr` that the line reader
completes while it drains `input` starting from the state `m`: a terminator
(CR or LF) counts when the buffered C string starts with that token. -/
def doneclr_dispatches (w : Nat) (hw : Hw) : List Nat → Cli → Nat
  | [], _ => 0
  | c :: t, m =>
    (if (c = 13 ∨ c = 10) ∧ (strtokAll (cstr m.buf) []).head? = some "doneclr".toList
      then 1 else 0) + doneclr_dispatches w hw t (feed w hw c m)

/-! # Theorems

## Basic facts about the log and the CTRL word -/

@[simp] theorem emit_trace (e : Event) (s : State) : (emit e s).trace = s.trace ++ [e] := rfl
@[simp] theorem emit_g_mode (e : Event) (s : State) : (emit e s).g_mode = s.g_mode := rfl
@[simp] theorem emit_g_enable (e : Event) (s : State) : (emit e s).g_enable = s.g_enable := rfl

theorem and_three (m : Nat) : m &&& 3 = m % 4 := by
  have h := Nat.and_pow_two_sub_one_eq_mod m 2
  simpa using h

theorem ctrl_word_fields (en mode swr clr : Nat) (hm : mode ≤ 3) :
    bit (ctrl_word en mode swr clr) 0 = (if en = 0 then 0 else 1)
      ∧ mode_field (ctrl_word en mode swr clr) = mode
      ∧ bit (ctrl_word en mode swr clr) 2 = (if swr = 0 then 0 else 1)
      ∧ bit (ctrl_word en mode swr clr) 15 = (if clr = 0 then 0 else 1) := by
  interval_cases mode <;> by_cases he : en = 0 <;> by_cases hs : swr = 0 <;>
    by_cases hc : clr = 0 <;> simp [ctrl_word, he, hs, hc] <;> decide



theorem fold_shadow (h : List Op) (s : State) :
    (h.foldl (fun s o => o.apply s) s).g_enable
        = h.foldl (fun d o => match o with
            | Op.enable f => if f = 0 then 0 else 1
            | _ => d) s.g_enable
      ∧ (h.foldl (fun s o => o.apply s) s).g_mode
        = h.foldl (fun d o => match o with
            | Op.set_mode m => m % 4
            | _ => d) s.g_mode := by
  induction h generalizing s with
  | nil => simp
  | cons o t ih =>
    simp only [List.foldl_cons]
    rw [(ih (o.apply s)).1, (ih (o.apply s)).2]
    cases o <;>
      simp [Op.apply, prbs_enable, prbs_set_mode, prbs_set_frame, prbs_set_seed, prbs_reset,
        prbs_clear, write_ctrl, wr, and_three]

theorem startup_shadow : (startup init).g_enable = 1 ∧ (startup init).g_mode = 3 := by
  constructor <;> rfl

theorem after_shadow (h : List Op) :
    (after h).g_enable = lastEnable h ∧ (after h).g_mode = lastMode h := by
  have := fold_shadow h (startup init)
  rw [startup_shadow.1, startup_shadow.2] at this
  exact this

theorem fold_mode_le (h : List Op) (d : Nat) (hd : d ≤ 3) :
    h.foldl (fun d o => match o with
      | Op.set_mode m => m % 4
      | _ => d) d ≤ 3 := by
  induction h generalizing d with
  | nil => simpa using hd
  | cons o t ih =>
    simp only [List.foldl_cons]
    apply ih
    cases o <;> simp <;> omega

theorem lastMode_le (h : List Op) : lastMode h ≤ 3 := fold_mode_le h 3 (by omega)

theorem fold_enable_le (h : List Op) (d : Nat) (hd : d ≤ 1) :
    h.foldl (fun d o => match o with
      | Op.enable f => if f = 0 then 0 else 1
      | _ => d) d ≤ 1 := by
  induction h generalizing d with
  | nil => simpa using hd
  | cons o t ih =>
    simp only [List.foldl_cons]
    apply ih
    cases o <;> simp <;> first | omega | (split <;> omega)

theorem lastEnable_le (h : List Op) : lastEnable h ≤ 1 := fold_enable_le h 1 (by omega)

/-- C1: after start-up and any history of controller calls, the CTRL word the
next `reset` or `clear_counters` call writes carries in bit 0 the normalised
flag of the last `enable` call (1 when there was none) and in bits 5:4 the
argument of the last `set_mode` call reduced to two bits (3 when there was
none). -/
theorem C1_next_ctrl_write_encodes_last_calls (h : List Op) :
    (∃ v, (prbs_reset (after h)).trace = (after h).trace ++ [Event.wr REG_CTRL v]
        ∧ bit v 0 = lastEnable h ∧ mode_field v = lastMode h)
      ∧ (∃ v, (prbs_clear (after h)).trace = (after h).trace ++ [Event.wr REG_CTRL v]
        ∧ bit v 0 = lastEnable h ∧ mode_field v = lastMode h) := by
  have hs := after_shadow h
  have hm := lastMode_le h
  have he := lastEnable_le h
  have key : ∀ swr clr, bit (ctrl_word (lastEnable h) (lastMode h) swr clr) 0 = lastEnable h
      ∧ mode_field (ctrl_word (lastEnable h) (lastMode h) swr clr) = lastMode h := by
    intro swr clr
    have f := ctrl_word_fields (lastEnable h) (lastMode h) swr clr hm
    refine ⟨?_, f.2.1⟩
    rw [f.1]
    split <;> omega
  constructor
  · refine ⟨ctrl_word (lastEnable h) (lastMode h) 1 0, ?_, key 1 0⟩
    simp [prbs_reset, write_ctrl, wr, hs.1, hs.2]
  · refine ⟨ctrl_word (lastEnable h) (lastMode h) 0 1, ?_, key 0 1⟩
    simp [prbs_clear, write_ctrl, wr, hs.1, hs.2]

theorem and_mask31 (sd : Nat) : sd &&& 0x7FFFFFFF = sd % 2 ^ 31 := by
  have h := Nat.and_pow_two_sub_one_eq_mod sd 31
  simpa using h

theorem bit_mod_two_pow (x n i : Nat) (hi : i < n) : bit (x % 2 ^ n) i = bit x i := by
  obtain ⟨k, rfl⟩ : ∃ k, n = i + (k + 1) := ⟨n - i - 1, by omega⟩
  unfold bit
  rw [pow_add, Nat.mod_mul_right_div_self, pow_succ]
  exact Nat.mod_mul_left_mod _ _ _

/-- C6: `set_seed` performs exactly one register write, to SEED (offset 8), of
the argument with bit 31 (and everything above) cleared and the low 31 bits
unchanged; the shadow state is untouched. -/
theorem C6_set_seed_masks_to_31_bits (sd : Nat) (s : State) :
    (prbs_set_seed sd s).trace = s.trace ++ [Event.wr REG_SEED (sd &&& 0x7FFFFFFF)]
      ∧ REG_SEED = 0x08
      ∧ bit (sd &&& 0x7FFFFFFF) 31 = 0
      ∧ sd &&& 0x7FFFFFFF < 2 ^ 31
      ∧ (sd &&& 0x7FFFFFFF) % 2 ^ 31 = sd % 2 ^ 31
      ∧ (∀ i, bit (sd &&& 0x7FFFFFFF) i = if i < 31 then bit sd i else 0)
      ∧ (prbs_set_seed sd s).g_mode = s.g_mode
      ∧ (prbs_set_seed sd s).g_enable = s.g_enable := by
  have hlt : sd % 2 ^ 31 < 2 ^ 31 := Nat.mod_lt _ (by norm_num)
  refine ⟨rfl, rfl, ?_, ?_, ?_, ?_, rfl, rfl⟩
  · rw [and_mask31]
    unfold bit
    rw [Nat.div_eq_of_lt hlt]
  · rw [and_mask31]; exact hlt
  · rw [and_mask31, Nat.mod_mod]
  · intro i
    rw [and_mask31]
    split
    · rename_i hi
      exact bit_mod_two_pow sd 31 i hi
    · rename_i hi
      unfold bit
      have : sd % 2 ^ 31 < 2 ^ i :=
        lt_of_lt_of_le hlt (Nat.pow_le_pow_right (by norm_num) (by omega))
      rw [Nat.div_eq_of_lt this]

/-- C9: after start-up and any history of controller calls, `enable` writes a
CTRL word with sw_reset = 0 and clear = 0, `reset` one with sw_reset = 1 and
clear = 0, `clear_counters` one with sw_reset = 0 and clear = 1; the history,
whatever one-shot writes it contains, has no influence on these positions. -/
theorem C9_one_shot_bits_not_latched (h : List Op) (flag : Nat) :
    (∃ v, (prbs_enable flag (after h)).trace = (after h).trace ++ [Event.wr REG_CTRL v]
        ∧ bit v 2 = 0 ∧ bit v 15 = 0)
      ∧ (∃ v, (prbs_reset (after h)).trace = (after h).trace ++ [Event.wr REG_CTRL v]
        ∧ bit v 2 = 1 ∧ bit v 15 = 0)
      ∧ (∃ v, (prbs_clear (after h)).trace = (after h).trace ++ [Event.wr REG_CTRL v]
        ∧ bit v 2 = 0 ∧ bit v 15 = 1) := by
  have hm : (after h).g_mode ≤ 3 := by rw [(after_shadow h).2]; exact lastMode_le h
  refine ⟨⟨_, rfl, ?_, ?_⟩, ⟨_, rfl, ?_, ?_⟩, ⟨_, rfl, ?_, ?_⟩⟩
  · exact (ctrl_word_fields _ _ 0 0 hm).2.2.1
  · exact (ctrl_word_fields _ _ 0 0 hm).2.2.2
  · exact (ctrl_word_fields _ _ 1 0 hm).2.2.1
  · exact (ctrl_word_fields _ _ 1 0 hm).2.2.2
  · exact (ctrl_word_fields _ _ 0 1 hm).2.2.1
  · exact (ctrl_word_fields _ _ 0 1 hm).2.2.2

/-! ## `strtoul` on numerals -/

theorem digitVal_isspace (c : Char) (h : isspace c = true) : digitVal c = none := by
  simp [isspace] at h
  rcases h with ((((rfl | rfl) | rfl) | rfl) | rfl) | rfl <;> decide

theorem digitVal_minus : digitVal '-' = none := by decide
theorem digitVal_plus : digitVal '+' = none := by decide

theorem isDigitOf_digitVal {b : Nat} {c : Char} (h : isDigitOf b c = true) :
    ∃ d, digitVal c = some d ∧ d < b := by
  unfold isDigitOf at h
  split at h
  · rename_i d hd
    exact ⟨d, hd, by simpa using h⟩
  · simp at h

theorem accDigits_all (b : Nat) (ds : List Char) (acc : Nat)
    (h : ds.all (isDigitOf b) = true) :
    accDigits b acc ds = ds.foldl (fun a c => a * b + (digitVal c).getD 0) acc := by
  induction ds generalizing acc with
  | nil => rfl
  | cons c cs ih =>
    simp only [List.all_cons, Bool.and_eq_true] at h
    obtain ⟨d, hd, hlt⟩ := isDigitOf_digitVal h.1
    simp only [accDigits, hd, hlt, if_true, List.foldl_cons, Option.getD_some]
    exact ih _ h.2

/-- The exact value `strtoul` converts before range handling, for a string
that starts with neither white space nor a sign. -/
theorem strtoul_plain (w : Nat) (s : List Char) (base : Nat)
    (h1 : s.dropWhile isspace = s) (h2 : stripSign s = (false, s)) :
    strtoul w s base =
      if accDigits (pickBase base s).1 0 (pickBase base s).2 > 2 ^ w - 1 then 2 ^ w - 1
      else accDigits (pickBase base s).1 0 (pickBase base s).2 := by
  simp [strtoul, h1, h2]

theorem digit_head_plain (c : Char) (r : List Char) (h : digitVal c ≠ none) :
    (c :: r).dropWhile isspace = c :: r ∧ stripSign (c :: r) = (false, c :: r) := by
  have hs : isspace c = false := by
    cases hc : isspace c
    · rfl
    · exact absurd (digitVal_isspace c hc) h
  have hm : c ≠ '-' := by
    rintro rfl; exact h digitVal_minus
  have hp : c ≠ '+' := by
    rintro rfl; exact h digitVal_plus
  constructor
  · simp [List.dropWhile, hs]
  · simp [stripSign, hm, hp]

/-- On an unsigned numeral of base auto-detection `strtoul(s, NULL, 0)` reads
the denoted number. -/
theorem accDigits_numeral (s : List Char) (v : Nat) (h : numeralValue s = some v) :
    s.dropWhile isspace = s ∧ stripSign s = (false, s)
      ∧ accDigits (pickBase 0 s).1 0 (pickBase 0 s).2 = v := by
  unfold numeralValue at h
  match s, h with
  | [], h => simp at h
  | c :: r, h =>
    by_cases hc : c = '0'
    · subst hc
      have hd := digit_head_plain '0' r (by decide)
      refine ⟨hd.1, hd.2, ?_⟩
      simp only [List.head?_cons, List.tail_cons, if_true] at h
      by_cases hx : r.head? = some 'x' ∨ r.head? = some 'X'
      · rw [if_pos hx] at h
        split at h
        · rename_i hr
          simp only [Option.some.injEq] at h
          subst h
          simp only [pickBase, List.head?_cons, List.tail_cons, hx, true_or, and_self, if_true]
          rw [accDigits_all 16 _ 0 hr.2]
          rfl
        · simp at h
      · rw [if_neg hx] at h
        split at h
        · rename_i hr
          simp only [Option.some.injEq] at h
          subst h
          simp only [pickBase, List.head?_cons, List.tail_cons, hx, and_false, if_false, if_true]
          have h0 : digitVal '0' = some 0 := by decide
          simp only [accDigits, h0]
          rw [if_pos (by norm_num), accDigits_all 8 _ _ hr]
          rfl
        · simp at h
    · have hne : (c :: r).head? ≠ some '0' := by simpa using hc
      rw [if_neg hne] at h
      split at h
      · rename_i hr
        simp only [Option.some.injEq] at h
        subst h
        have hall := hr.2
        simp only [List.all_cons, Bool.and_eq_true] at hall
        obtain ⟨d, hd, _⟩ := isDigitOf_digitVal hall.1
        have hp := digit_head_plain c r (by rw [hd]; simp)
        refine ⟨hp.1, hp.2, ?_⟩
        simp only [pickBase, hne, false_and, and_false, if_false, if_true]
        rw [accDigits_all 10 _ 0 hr.2]
        rfl
      · simp at h

theorem strtoul_numeral (w : Nat) (s : List Char) (v : Nat)
    (h : numeralValue s = some v) (hv : v < 2 ^ w) : strtoul w s 0 = v := by
  obtain ⟨h1, h2, h3⟩ := accDigits_numeral s v h
  rw [strtoul_plain w s 0 h1 h2, h3]
  have hn : ¬ (v > 2 ^ w - 1) := by omega
  rw [if_neg hn]

theorem strtoul_numeral_sat (w : Nat) (s : List Char) (v : Nat)
    (h : numeralValue s = some v) (hv : 2 ^ w ≤ v) : strtoul w s 0 = 2 ^ w - 1 := by
  obtain ⟨h1, h2, h3⟩ := accDigits_numeral s v h
  rw [strtoul_plain w s 0 h1 h2, h3]
  have hp := Nat.two_pow_pos w
  have hn : v > 2 ^ w - 1 := by omega
  rw [if_pos hn]

/-! ## `parse_mode` -/

theorem parse_mode_numeric (w : Nat) (s : List Char) (hs : s ∉ symbolicModes) :
    parse_mode w s = min (strtoul w s 0 % 2 ^ 32) 3 := by
  simp only [symbolicModes, List.mem_cons, List.mem_singleton, List.not_mem_nil, or_false,
    not_or] at hs
  obtain ⟨h7, h15, h23, h31⟩ := hs
  simp only [parse_mode, h7, h15, h23, h31, if_false]
  split <;> omega

theorem small_numeral (w : Nat) (hw : 32 ≤ w) (s : List Char) (v : Nat)
    (h : numeralValue s = some v) (hv : v < 2 ^ 32) : strtoul w s 0 % 2 ^ 32 = v := by
  have hle : 2 ^ 32 ≤ 2 ^ w := Nat.pow_le_pow_right (by norm_num) hw
  rw [strtoul_numeral w s v h (by omega), Nat.mod_eq_of_lt hv]

theorem ulong_max_low (w : Nat) (hw : 32 ≤ w) : (2 ^ w - 1) % 2 ^ 32 = 2 ^ 32 - 1 := by
  obtain ⟨k, hk⟩ : ∃ k, 2 ^ w = 2 ^ 32 * k :=
    ⟨2 ^ (w - 32), by rw [← pow_add]; congr 1; omega⟩
  have hp := Nat.two_pow_pos w
  rw [hk] at hp ⊢
  norm_num at hp ⊢
  omega

/-- C2: `parse_mode` maps "7", "15", "23", "31" to 0, 1, 2, 3 and each of
"0", "1", "2", "3" to the number it denotes. -/
theorem C2_parse_mode_table (w : Nat) (hw : 32 ≤ w) :
    parse_mode w "7".toList = 0 ∧ parse_mode w "15".toList = 1
      ∧ parse_mode w "23".toList = 2 ∧ parse_mode w "31".toList = 3
      ∧ parse_mode w "0".toList = 0 ∧ parse_mode w "1".toList = 1
      ∧ parse_mode w "2".toList = 2 ∧ parse_mode w "3".toList = 3 := by
  refine ⟨rfl, rfl, rfl, rfl, ?_, ?_, ?_, ?_⟩
  · rw [parse_mode_numeric w _ (by decide),
      small_numeral w hw _ 0 (by decide) (by norm_num)]; rfl
  · rw [parse_mode_numeric w _ (by decide),
      small_numeral w hw _ 1 (by decide) (by norm_num)]; rfl
  · rw [parse_mode_numeric w _ (by decide),
      small_numeral w hw _ 2 (by decide) (by norm_num)]; rfl
  · rw [parse_mode_numeric w _ (by decide),
      small_numeral w hw _ 3 (by decide) (by norm_num)]; rfl

/-- The table of C2 instantiated for a 64-bit `unsigned long`. -/
theorem C2_parse_mode_table_witness :
    32 ≤ 64 ∧ parse_mode 64 "7".toList = 0 ∧ parse_mode 64 "15".toList = 1
      ∧ parse_mode 64 "23".toList = 2 ∧ parse_mode 64 "31".toList = 3
      ∧ parse_mode 64 "0".toList = 0 ∧ parse_mode 64 "1".toList = 1
      ∧ parse_mode 64 "2".toList = 2 ∧ parse_mode 64 "3".toList = 3 :=
  ⟨by decide, C2_parse_mode_table 64 (by decide)⟩

/-- C3 fails as stated: "08" and "01" are numeric strings outside the eight
listed ones, yet `parse_mode` returns 0 and 1 for them (base auto-detection
reads a leading 0 as octal), not 3. -/
theorem C3_counterexample :
    "08".toList ∉ symbolicModes ∧ "08".toList ∉ ["0".toList, "1".toList, "2".toList, "3".toList]
      ∧ "08".toList.all (isDigitOf 10) = true
      ∧ parse_mode 64 "08".toList = 0 ∧ parse_mode 32 "08".toList = 0
      ∧ "01".toList ∉ symbolicModes ∧ "01".toList ∉ ["0".toList, "1".toList, "2".toList, "3".toList]
      ∧ parse_mode 64 "01".toList = 1 ∧ parse_mode 32 "01".toList = 1 := by
  decide

/-- C3 (amended): for every unsigned numeral of base auto-detection other than
7/15/23/31 that denotes a value `v > 3` with `v < 2^32` or `v > ULONG_MAX`,
`parse_mode` returns 3. -/
theorem C3_parse_mode_clamps (w : Nat) (hw : 32 ≤ w) (s : List Char) (v : Nat)
    (hs : s ∉ symbolicModes) (h : numeralValue s = some v) (h3 : 3 < v)
    (hr : v < 2 ^ 32 ∨ 2 ^ w ≤ v) : parse_mode w s = 3 := by
  rw [parse_mode_numeric w s hs]
  rcases hr with hr | hr
  · rw [small_numeral w hw s v h hr]; omega
  · rw [strtoul_numeral_sat w s v h hr, ulong_max_low w hw]; rfl

/-- The amended C3 at the numeral "4" for a 64-bit `unsigned long`. -/
theorem C3_parse_mode_clamps_witness :
    32 ≤ 64 ∧ "4".toList ∉ symbolicModes ∧ numeralValue "4".toList = some 4 ∧ 3 < 4
      ∧ (4 < 2 ^ 32 ∨ 2 ^ 64 ≤ 4) ∧ parse_mode 64 "4".toList = 3 :=
  ⟨by decide, by decide, by decide, by decide, Or.inl (by norm_num),
    C3_parse_mode_clamps 64 (by decide) "4".toList 4 (by decide) (by decide) (by decide)
      (Or.inl (by norm_num))⟩

/-- The clamp of `parse_mode` acts on the value already truncated to 32 bits:
with a 64-bit `unsigned long` the numeral 4294967296 yields mode 0, with a
32-bit one `strtoul` saturates and the result is 3. -/
theorem parse_mode_two_pow_32 :
    parse_mode 64 "4294967296".toList = 0 ∧ parse_mode 32 "4294967296".toList = 3 := by
  decide

theorem writes_append (t u : List Event) : writes (t ++ u) = writes t ++ writes u := by
  induction t with
  | nil => rfl
  | cons e t ih => cases e <;> simp [writes, ih]

theorem writes_emit_wr (off v : Nat) (s : State) :
    writes (emit (Event.wr off v) s).trace = writes s.trace ++ [(off, v)] := by
  simp [writes_append, writes]

theorem writes_emit_other (e : Event) (s : State) (h : ∀ off v, e ≠ Event.wr off v) :
    writes (emit e s).trace = writes s.trace := by
  cases e with
  | wr off v => exact absurd rfl (h off v)
  | _ => simp [writes_append, writes]

theorem print_status_trace (hw : Hw) (s : State) :
    (print_status hw s).trace = s.trace ++
      [Event.rd REG_STATUS (hw s.trace.length REG_STATUS % 2 ^ 32),
        Event.rd REG_BYTECNT (hw (s.trace.length + 1) REG_BYTECNT % 2 ^ 32),
        Event.rd REG_BITCNT (hw (s.trace.length + 2) REG_BITCNT % 2 ^ 32),
        Event.rd REG_FRMLEN (hw (s.trace.length + 3) REG_FRMLEN % 2 ^ 32),
        Event.print (Msg.status
          (if hw s.trace.length REG_STATUS % 2 ^ 32 &&& ST_RUNNING ≠ 0 then 1 else 0)
          (if hw s.trace.length REG_STATUS % 2 ^ 32 &&& ST_DONE ≠ 0 then 1 else 0)
          s.g_mode s.g_enable (hw (s.trace.length + 3) REG_FRMLEN % 2 ^ 32)
          (hw (s.trace.length + 1) REG_BYTECNT % 2 ^ 32)
          (hw (s.trace.length + 2) REG_BITCNT % 2 ^ 32))] := by
  simp [print_status, rd, xil_printf, emit, Nat.add_assoc]

theorem print_status_shadow (hw : Hw) (s : State) :
    (print_status hw s).g_mode = s.g_mode ∧ (print_status hw s).g_enable = s.g_enable :=
  ⟨rfl, rfl⟩

theorem print_status_writes (hw : Hw) (s : State) :
    writes (print_status hw s).trace = writes s.trace := by
  rw [print_status_trace, writes_append]
  simp [writes]

/-! ## Dispatch on the first token -/

theorem handle_line_frame (w : Nat) (hw : Hw) (line a : List Char) (rest : List (List Char))
    (s : State) (ht : strtokAll line [] = "frame".toList :: a :: rest) :
    handle_line w hw line s
      = print_status hw (prbs_set_frame (strtoul w a 0 % 2 ^ 16) s) := by
  unfold handle_line
  rw [ht]
  have h1 : "frame".toList ≠ "help".toList := by decide
  have h2 : "frame".toList ≠ "status".toList := by decide
  have h3 : "frame".toList ≠ "enable".toList := by decide
  have h4 : "frame".toList ≠ "mode".toList := by decide
  simp [h1, h2, h3, h4]

theorem handle_line_mode (w : Nat) (hw : Hw) (line a : List Char) (rest : List (List Char))
    (s : State) (ht : strtokAll line [] = "mode".toList :: a :: rest) :
    handle_line w hw line s = print_status hw (prbs_set_mode (parse_mode w a) s) := by
  unfold handle_line
  rw [ht]
  have h1 : "mode".toList ≠ "help".toList := by decide
  have h2 : "mode".toList ≠ "status".toList := by decide
  have h3 : "mode".toList ≠ "enable".toList := by decide
  simp [h1, h2, h3]

theorem handle_line_doneclr (w : Nat) (hw : Hw) (line : List Char) (rest : List (List Char))
    (s : State) (ht : strtokAll line [] = "doneclr".toList :: rest) :
    handle_line w hw line s = xil_printf Msg.done_cleared (wr REG_STATUS ST_DONE s) := by
  unfold handle_line
  rw [ht]
  have h1 : "doneclr".toList ≠ "help".toList := by decide
  have h2 : "doneclr".toList ≠ "status".toList := by decide
  have h3 : "doneclr".toList ≠ "enable".toList := by decide
  have h4 : "doneclr".toList ≠ "mode".toList := by decide
  have h5 : "doneclr".toList ≠ "frame".toList := by decide
  have h6 : "doneclr".toList ≠ "seed".toList := by decide
  have h7 : "doneclr".toList ≠ "reset".toList := by decide
  have h8 : "doneclr".toList ≠ "clear".toList := by decide
  simp [h1, h2, h3, h4, h5, h6, h7, h8]

/-! ## `frame`, `doneclr`, `mode` -/

/-- C5 fails as stated: the line `frame 65536` stores 0, not 65536, to
FRAME_LEN, because `prbs_set_frame` takes a 16-bit argument. -/
theorem C5_counterexample :
    numeralValue "65536".toList = some 65536
      ∧ writes (handle_line 64 (fun _ _ => 0) "frame 65536".toList init).trace
        = [(REG_FRMLEN, 0)] := by
  decide

/-- C5 (amended): for a `frame` line whose argument is an unsigned numeral
denoting `n ≤ ULONG_MAX`, the only register store is one to FRAME_LEN (offset
0x0C) of `n` reduced to 16 bits: exactly `n`, unclamped, when `n < 65536`
(so `frame 0` stores 0). -/
theorem C5_frame_stores_low_16_bits (w : Nat) (hw : Hw) (line a : List Char)
    (rest : List (List Char)) (n : Nat) (s : State)
    (ht : strtokAll line [] = "frame".toList :: a :: rest)
    (ha : numeralValue a = some n) (hn : n < 2 ^ w) :
    writes (handle_line w hw line s).trace
        = writes s.trace ++ [(REG_FRMLEN, if n < 65536 then n else n % 65536)]
      ∧ REG_FRMLEN = 0x0C := by
  refine ⟨?_, rfl⟩
  rw [handle_line_frame w hw line a rest s ht, print_status_writes,
    strtoul_numeral w a n ha hn]
  have hv : n % 2 ^ 16 % 2 ^ 16 = if n < 65536 then n else n % 65536 := by
    split <;> omega
  simp only [prbs_set_frame, wr, writes_emit_wr, hv]

/-- The amended C5 at the line `frame 0`, from the initial state. -/
theorem C5_frame_stores_low_16_bits_witness :
    strtokAll "frame 0".toList [] = "frame".toList :: "0".toList :: []
      ∧ numeralValue "0".toList = some 0 ∧ 0 < 2 ^ 64
      ∧ writes (handle_line 64 (fun _ _ => 7) "frame 0".toList init).trace
        = writes init.trace ++ [(REG_FRMLEN, if 0 < 65536 then 0 else 0 % 65536)]
      ∧ REG_FRMLEN = 0x0C :=
  ⟨by decide, by decide, by norm_num,
    C5_frame_stores_low_16_bits 64 (fun _ _ => 7) "frame 0".toList "0".toList [] 0 init
      (by decide) (by decide) (by norm_num)⟩

theorem bit_two_pow (k i : Nat) : bit (2 ^ k) i = if i = k then 1 else 0 := by
  unfold bit
  split
  · rename_i h
    subst h
    rw [Nat.div_self (Nat.two_pow_pos i)]
  · rename_i h
    rcases Nat.lt_or_gt_of_ne h with h | h
    · obtain ⟨j, rfl⟩ : ∃ j, k = i + (j + 1) := ⟨k - i - 1, by omega⟩
      rw [pow_add, Nat.mul_div_cancel_left _ (Nat.two_pow_pos i), pow_succ]
      exact Nat.mul_mod_left _ _
    · rw [Nat.div_eq_of_lt (Nat.pow_lt_pow_right (by norm_num) h)]

/-- C7: whatever STATUS holds, a line whose first token is `doneclr` appends
to the log exactly one store to STATUS (offset 4) of the word 0x100, which has
bit 8 set and every other bit clear, followed by the confirmation text; no
register is read, and the log is the same for every behaviour of the
hardware. -/
theorem C7_doneclr_stores_done_bit_only (w : Nat) (hw : Hw) (line : List Char)
    (rest : List (List Char)) (s : State)
    (ht : strtokAll line [] = "doneclr".toList :: rest) :
    (handle_line w hw line s).trace
        = s.trace ++ [Event.wr REG_STATUS 0x100, Event.print Msg.done_cleared]
      ∧ REG_STATUS = 0x04 ∧ ST_DONE = 0x100
      ∧ (∀ i, bit 0x100 i = if i = 8 then 1 else 0)
      ∧ (∀ hw2 : Hw, handle_line w hw2 line s = handle_line w hw line s) := by
  refine ⟨?_, rfl, rfl, ?_, ?_⟩
  · rw [handle_line_doneclr w hw line rest s ht]
    simp [xil_printf, wr, emit, ST_DONE]
  · intro i
    exact bit_two_pow 8 i
  · intro hw2
    rw [handle_line_doneclr w hw line rest s ht, handle_line_doneclr w hw2 line rest s ht]

/-- C7 at the line `doneclr` while STATUS reads running|done. -/
theorem C7_doneclr_stores_done_bit_only_witness :
    strtokAll "doneclr".toList [] = "doneclr".toList :: []
      ∧ (handle_line 64 (fun _ _ => 0x101) "doneclr".toList init).trace
        = init.trace ++ [Event.wr REG_STATUS 0x100, Event.print Msg.done_cleared]
      ∧ REG_STATUS = 0x04 ∧ ST_DONE = 0x100
      ∧ (∀ i, bit 0x100 i = if i = 8 then 1 else 0)
      ∧ (∀ hw2 : Hw, handle_line 64 hw2 "doneclr".toList init
          = handle_line 64 (fun _ _ => 0x101) "doneclr".toList init) :=
  ⟨by decide,
    C7_doneclr_stores_done_bit_only 64 (fun _ _ => 0x101) "doneclr".toList [] init (by decide)⟩

theorem print_status_last (hw : Hw) (s : State) :
    (print_status hw s).trace.getLast? = some (Event.print (Msg.status
      (if hw s.trace.length REG_STATUS % 2 ^ 32 &&& ST_RUNNING ≠ 0 then 1 else 0)
      (if hw s.trace.length REG_STATUS % 2 ^ 32 &&& ST_DONE ≠ 0 then 1 else 0)
      s.g_mode s.g_enable (hw (s.trace.length + 3) REG_FRMLEN % 2 ^ 32)
      (hw (s.trace.length + 1) REG_BYTECNT % 2 ^ 32)
      (hw (s.trace.length + 2) REG_BITCNT % 2 ^ 32))) := by
  rw [print_status_trace]
  simp

theorem set_mode_word (m : Nat) (s : State) :
    (prbs_set_mode m s).trace = s.trace ++ [Event.wr REG_CTRL (ctrl_word s.g_enable (m % 4) 1 0)]
      ∧ (prbs_set_mode m s).g_mode = m % 4 ∧ (prbs_set_mode m s).g_enable = s.g_enable := by
  simp [prbs_set_mode, write_ctrl, wr, and_three]

/-- C8: for every argument `m` and every shadow state, `set_mode` sets the
shadow mode to `m mod 4`, keeps shadow enable, and appends exactly one CTRL
store whose mode field is `m mod 4`, with sw_reset = 1 and clear = 0; a status
report taken afterwards prints that mode. The line `mode 15` ends with shadow
mode 1, its only register store is a CTRL word with mode field 1 and
sw_reset = 1, and its status report prints MODE=1. -/
theorem C8_set_mode_masks_and_resets (m : Nat) (s : State) (w : Nat) (hw : Hw) :
    (prbs_set_mode m s).g_mode = m % 4
      ∧ (prbs_set_mode m s).g_enable = s.g_enable
      ∧ (∃ v, (prbs_set_mode m s).trace = s.trace ++ [Event.wr REG_CTRL v]
          ∧ mode_field v = m % 4 ∧ bit v 2 = 1 ∧ bit v 15 = 0)
      ∧ (∃ r d f bc bt, (print_status hw (prbs_set_mode m s)).trace.getLast?
          = some (Event.print (Msg.status r d (m % 4) s.g_enable f bc bt)))
      ∧ (handle_line w hw "mode 15".toList s).g_mode = 1
      ∧ (handle_line w hw "mode 15".toList s).g_enable = s.g_enable
      ∧ (∃ v, writes (handle_line w hw "mode 15".toList s).trace
            = writes s.trace ++ [(REG_CTRL, v)]
          ∧ mode_field v = 1 ∧ bit v 2 = 1 ∧ bit v 15 = 0)
      ∧ (∃ r d f bc bt, (handle_line w hw "mode 15".toList s).trace.getLast?
          = some (Event.print (Msg.status r d 1 s.g_enable f bc bt))) := by
  have hm : m % 4 ≤ 3 := by omega
  have hl : handle_line w hw "mode 15".toList s = print_status hw (prbs_set_mode 1 s) := by
    rw [handle_line_mode w hw "mode 15".toList "15".toList [] s (by decide)]
    rfl
  have last : ∀ k, ∃ r d f bc bt, (print_status hw (prbs_set_mode k s)).trace.getLast?
      = some (Event.print (Msg.status r d (k % 4) s.g_enable f bc bt)) := by
    intro k
    have h := print_status_last hw (prbs_set_mode k s)
    rw [(set_mode_word k s).2.1, (set_mode_word k s).2.2] at h
    exact ⟨_, _, _, _, _, h⟩
  have word : ∀ k, k ≤ 3 → ∃ v, (prbs_set_mode k s).trace = s.trace ++ [Event.wr REG_CTRL v]
      ∧ mode_field v = k % 4 ∧ bit v 2 = 1 ∧ bit v 15 = 0 := by
    intro k hk
    have f := ctrl_word_fields s.g_enable (k % 4) 1 0 (by omega)
    exact ⟨_, (set_mode_word k s).1, f.2.1, f.2.2.1, f.2.2.2⟩
  refine ⟨(set_mode_word m s).2.1, (set_mode_word m s).2.2, ?_, last m, ?_, ?_, ?_, ?_⟩
  · have f := ctrl_word_fields s.g_enable (m % 4) 1 0 hm
    exact ⟨_, (set_mode_word m s).1, f.2.1, f.2.2.1, f.2.2.2⟩
  · rw [hl, (print_status_shadow hw _).1, (set_mode_word 1 s).2.1]
  · rw [hl, (print_status_shadow hw _).2, (set_mode_word 1 s).2.2]
  · obtain ⟨v, hv, h1, h2, h3⟩ := word 1 (by omega)
    refine ⟨v, ?_, h1, h2, h3⟩
    rw [hl, print_status_writes, hv, writes_append]
    rfl
  · rw [hl]
    exact last 1

/-! ## The CTRL log of the whole program -/

/-- Case analysis on the dispatch of a line: a property that holds for each
of the eleven possible outcomes holds for `handle_line`. -/
theorem handle_line_cases (P : State → Prop) (w : Nat) (hw : Hw) (line : List Char) (s : State)
    (h0 : P s) (h1 : P (print_help s)) (h2 : P (print_status hw s))
    (h3 : ∀ x, P (print_status hw (prbs_enable x s)))
    (h4 : ∀ x, P (print_status hw (prbs_set_mode x s)))
    (h5 : ∀ x, P (print_status hw (prbs_set_frame x s)))
    (h6 : ∀ x, P (print_status hw (prbs_set_seed x s)))
    (h7 : P (xil_printf Msg.sw_reset (prbs_reset s)))
    (h8 : P (xil_printf Msg.clear_counters (prbs_clear s)))
    (h9 : P (xil_printf Msg.done_cleared (wr REG_STATUS ST_DONE s)))
    (h10 : P (xil_printf Msg.unknown_usage s)) :
    P (handle_line w hw line s) := by
  unfold handle_line
  simp only
  generalize (List.take 4 (strtokAll line [])) = argv
  by_cases c0 : argv.length = 0
  · rw [if_pos c0]; exact h0
  rw [if_neg c0]
  by_cases c1 : argv.getD 0 [] = "help".toList
  · rw [if_pos c1]; exact h1
  rw [if_neg c1]
  by_cases c2 : argv.getD 0 [] = "status".toList
  · rw [if_pos c2]; exact h2
  rw [if_neg c2]
  by_cases c3 : argv.getD 0 [] = "enable".toList ∧ argv.length ≥ 2
  · rw [if_pos c3]; exact h3 _
  rw [if_neg c3]
  by_cases c4 : argv.getD 0 [] = "mode".toList ∧ argv.length ≥ 2
  · rw [if_pos c4]; exact h4 _
  rw [if_neg c4]
  by_cases c5 : argv.getD 0 [] = "frame".toList ∧ argv.length ≥ 2
  · rw [if_pos c5]; exact h5 _
  rw [if_neg c5]
  by_cases c6 : argv.getD 0 [] = "seed".toList ∧ argv.length ≥ 2
  · rw [if_pos c6]; exact h6 _
  rw [if_neg c6]
  by_cases c7 : argv.getD 0 [] = "reset".toList
  · rw [if_pos c7]; exact h7
  rw [if_neg c7]
  by_cases c8 : argv.getD 0 [] = "clear".toList
  · rw [if_pos c8]; exact h8
  rw [if_neg c8]
  by_cases c9 : argv.getD 0 [] = "doneclr".toList
  · rw [if_pos c9]; exact h9
  rw [if_neg c9]
  exact h10

theorem ctrl_writes_append (t u : List Event) :
    ctrl_writes (t ++ u) = ctrl_writes t ++ ctrl_writes u := by
  simp [ctrl_writes, writes_append]

theorem CtrlInv_emit (e : Event) (s : State) (h : CtrlInv s)
    (he : ∀ v, e = Event.wr REG_CTRL v → ¬ (bit v 2 = 1 ∧ bit v 15 = 1)) :
    CtrlInv (emit e s) := by
  obtain ⟨hm, rest, hr, hall⟩ := h
  refine ⟨hm, ?_⟩
  rw [emit_trace, ctrl_writes_append, hr]
  cases e with
  | wr off v =>
    by_cases ho : off = REG_CTRL
    · subst ho
      refine ⟨rest ++ [v], by simp [ctrl_writes, writes], ?_⟩
      intro x hx
      rcases List.mem_append.1 hx with hx | hx
      · exact hall x hx
      · rw [List.mem_singleton.1 hx]
        exact he v rfl
    · exact ⟨rest, by simp [ctrl_writes, writes, ho], hall⟩
  | rd off v => exact ⟨rest, by simp [ctrl_writes, writes], hall⟩
  | gpio off v => exact ⟨rest, by simp [ctrl_writes, writes], hall⟩
  | usleep us => exact ⟨rest, by simp [ctrl_writes, writes], hall⟩
  | print m => exact ⟨rest, by simp [ctrl_writes, writes], hall⟩

theorem CtrlInv_shadow (s : State) (gm ge : Nat) (h : CtrlInv s) (hg : gm ≤ 3) :
    CtrlInv { s with g_mode := gm, g_enable := ge } :=
  ⟨hg, h.2⟩

theorem CtrlInv_printf (m : Msg) (s : State) (h : CtrlInv s) : CtrlInv (xil_printf m s) :=
  CtrlInv_emit _ s h (by intro v hv; cases hv)

theorem CtrlInv_wr (off x : Nat) (s : State) (h : CtrlInv s) (ho : off ≠ REG_CTRL) :
    CtrlInv (wr off x s) :=
  CtrlInv_emit _ s h (by intro v hv; cases hv; exact absurd rfl ho)

theorem CtrlInv_rd (hw : Hw) (off : Nat) (s : State) (h : CtrlInv s) : CtrlInv (rd hw off s).2 :=
  CtrlInv_emit _ s h (by intro v hv; cases hv)

theorem CtrlInv_write_ctrl (en mode swr clr : Nat) (s : State) (h : CtrlInv s)
    (hm : mode ≤ 3) (hx : swr = 0 ∨ clr = 0) : CtrlInv (write_ctrl en mode swr clr s) := by
  apply CtrlInv_emit _ s h
  intro v hv
  cases hv
  have f := ctrl_word_fields en mode swr clr hm
  rw [f.2.2.1, f.2.2.2]
  rcases hx with hx | hx <;> simp [hx]

theorem CtrlInv_print_status (hw : Hw) (s : State) (h : CtrlInv s) :
    CtrlInv (print_status hw s) := by
  unfold print_status
  exact CtrlInv_printf _ _ (CtrlInv_rd _ _ _ (CtrlInv_rd _ _ _ (CtrlInv_rd _ _ _
    (CtrlInv_rd _ _ _ h))))

theorem CtrlInv_enable (en : Nat) (s : State) (h : CtrlInv s) : CtrlInv (prbs_enable en s) := by
  unfold prbs_enable
  exact CtrlInv_write_ctrl _ _ 0 0 _ (CtrlInv_shadow s s.g_mode _ h h.1) h.1 (Or.inl rfl)

theorem CtrlInv_set_mode (m : Nat) (s : State) (h : CtrlInv s) :
    CtrlInv (prbs_set_mode m s) := by
  unfold prbs_set_mode
  have hm : m &&& 3 ≤ 3 := by rw [and_three]; omega
  exact CtrlInv_write_ctrl _ _ 1 0 _ (CtrlInv_shadow s _ s.g_enable h hm) hm (Or.inr rfl)

theorem CtrlInv_reset (s : State) (h : CtrlInv s) : CtrlInv (prbs_reset s) :=
  CtrlInv_write_ctrl _ _ 1 0 _ h h.1 (Or.inr rfl)

theorem CtrlInv_clear (s : State) (h : CtrlInv s) : CtrlInv (prbs_clear s) :=
  CtrlInv_write_ctrl _ _ 0 1 _ h h.1 (Or.inl rfl)

theorem CtrlInv_handle_line (w : Nat) (hw : Hw) (line : List Char) (s : State)
    (h : CtrlInv s) : CtrlInv (handle_line w hw line s) := by
  apply handle_line_cases CtrlInv w hw line s h
  · exact CtrlInv_printf _ _ h
  · exact CtrlInv_print_status _ _ h
  · exact fun x => CtrlInv_print_status _ _ (CtrlInv_enable _ _ h)
  · exact fun x => CtrlInv_print_status _ _ (CtrlInv_set_mode _ _ h)
  · exact fun x => CtrlInv_print_status _ _ (CtrlInv_wr REG_FRMLEN _ _ h (by decide))
  · exact fun x => CtrlInv_print_status _ _ (CtrlInv_wr REG_SEED _ _ h (by decide))
  · exact CtrlInv_printf _ _ (CtrlInv_reset _ h)
  · exact CtrlInv_printf _ _ (CtrlInv_clear _ h)
  · exact CtrlInv_printf _ _ (CtrlInv_wr REG_STATUS _ _ h (by decide))
  · exact CtrlInv_printf _ _ h

theorem CtrlInv_feed (w : Nat) (hw : Hw) (c : Nat) (m : Cli) (h : CtrlInv m.st) :
    CtrlInv (feed w hw c m).st := by
  unfold feed
  split_ifs <;> first
    | exact h
    | exact CtrlInv_printf _ _ h
    | exact CtrlInv_printf _ _ (CtrlInv_handle_line _ _ _ _ (CtrlInv_printf _ _ h))

theorem CtrlInv_drain (w : Nat) (hw : Hw) (input : List Nat) (m : Cli) (h : CtrlInv m.st) :
    CtrlInv (drain w hw input m).st := by
  unfold drain
  induction input generalizing m with
  | nil => exact h
  | cons c t ih => exact ih _ (CtrlInv_feed w hw c m h)

theorem CtrlInv_heartbeat (m : Cli) (h : CtrlInv m.st) : CtrlInv (heartbeat m).st :=
  CtrlInv_emit _ _ (CtrlInv_emit _ _ h (by intro v hv; cases hv)) (by intro v hv; cases hv)

theorem CtrlInv_poll_status (hw : Hw) (m : Cli) (h : CtrlInv m.st) :
    CtrlInv (poll_status hw m).st := by
  unfold poll_status
  simp only
  split_ifs <;> first
    | exact CtrlInv_rd _ _ _ h
    | exact CtrlInv_printf _ _ (CtrlInv_rd _ _ _ h)
    | exact CtrlInv_printf _ _ (CtrlInv_wr REG_STATUS _ _ (CtrlInv_rd _ _ _ (CtrlInv_rd _ _ _ h))
        (by decide))
    | exact CtrlInv_printf _ _ (CtrlInv_wr REG_STATUS _ _ (CtrlInv_rd _ _ _
        (CtrlInv_printf _ _ (CtrlInv_rd _ _ _ h))) (by decide))

theorem CtrlInv_poll (w : Nat) (hw : Hw) (input : List Nat) (m : Cli) (h : CtrlInv m.st) :
    CtrlInv (poll w hw input m).st :=
  CtrlInv_poll_status hw _ (CtrlInv_drain w hw input _ (CtrlInv_heartbeat m h))

theorem CtrlInv_main_init : CtrlInv main_init.st :=
  ⟨by decide, [], by decide, by simp⟩

theorem CtrlInv_iter (w : Nat) (hw : Hw) (inputs : List (List Nat)) (m : Cli)
    (h : CtrlInv m.st) : CtrlInv (inputs.foldl (fun m i => poll w hw i m) m).st := by
  induction inputs generalizing m with
  | nil => exact h
  | cons i t ih => exact ih _ (CtrlInv_poll w hw i m h)

/-- C10 fails as stated: the CTRL word of the start-up sequence, 0x8035, has
both sw_reset (bit 2) and clear (bit 15) set. -/
theorem C10_counterexample :
    ctrl_writes (run 64 (fun _ _ => 0) []).st.trace = [0x8035]
      ∧ bit 0x8035 2 = 1 ∧ bit 0x8035 15 = 1 := by
  decide

/-- C10 (amended): in every run of the program the first CTRL store is the
start-up word 0x8035, which asserts sw_reset and clear together, and every
later CTRL store, whatever the input lines and the hardware answers, has at
most one of sw_reset (bit 2) and clear (bit 15) set. -/
theorem C10_one_shot_bits_exclusive_after_startup (w : Nat) (hw : Hw)
    (inputs : List (List Nat)) :
    ∃ rest, ctrl_writes (run w hw inputs).st.trace = 0x8035 :: rest
      ∧ ∀ v ∈ rest, ¬ (bit v 2 = 1 ∧ bit v 15 = 1) :=
  (CtrlInv_iter w hw inputs main_init CtrlInv_main_init).2

/-! ## Rejected and blank lines -/

theorem handle_line_unknown (w : Nat) (hw : Hw) (line t0 : List Char)
    (rest : List (List Char)) (s : State) (ht : strtokAll line [] = t0 :: rest)
    (h : t0 ∉ vocabulary) : handle_line w hw line s = xil_printf Msg.unknown_usage s := by
  simp only [vocabulary, List.mem_cons, List.mem_singleton, List.not_mem_nil, or_false,
    not_or] at h
  obtain ⟨h1, h2, h3, h4, h5, h6, h7, h8, h9⟩ := h
  have hlen : (List.take 4 (t0 :: rest)).length ≠ 0 := by simp
  have h0 : (List.take 4 (t0 :: rest)).getD 0 [] = t0 := by simp
  unfold handle_line
  rw [ht]
  simp only [hlen, h0, h1, h2, h3, h4, h5, h6, h7, h8, h9, false_and, if_false]

theorem handle_line_missing_arg (w : Nat) (hw : Hw) (line t0 : List Char) (s : State)
    (ht : strtokAll line [] = [t0]) (h : t0 ∈ argCommands) :
    handle_line w hw line s = xil_printf Msg.unknown_usage s := by
  have e1 : "enable".toList ≠ "help".toList := by decide
  have e2 : "enable".toList ≠ "status".toList := by decide
  have e7 : "enable".toList ≠ "reset".toList := by decide
  have e8 : "enable".toList ≠ "clear".toList := by decide
  have e9 : "enable".toList ≠ "doneclr".toList := by decide
  have m1 : "mode".toList ≠ "help".toList := by decide
  have m2 : "mode".toList ≠ "status".toList := by decide
  have m7 : "mode".toList ≠ "reset".toList := by decide
  have m8 : "mode".toList ≠ "clear".toList := by decide
  have m9 : "mode".toList ≠ "doneclr".toList := by decide
  have f1 : "frame".toList ≠ "help".toList := by decide
  have f2 : "frame".toList ≠ "status".toList := by decide
  have f7 : "frame".toList ≠ "reset".toList := by decide
  have f8 : "frame".toList ≠ "clear".toList := by decide
  have f9 : "frame".toList ≠ "doneclr".toList := by decide
  have s1 : "seed".toList ≠ "help".toList := by decide
  have s2 : "seed".toList ≠ "status".toList := by decide
  have s7 : "seed".toList ≠ "reset".toList := by decide
  have s8 : "seed".toList ≠ "clear".toList := by decide
  have s9 : "seed".toList ≠ "doneclr".toList := by decide
  simp only [argCommands, List.mem_cons, List.mem_singleton, List.not_mem_nil, or_false] at h
  unfold handle_line
  rw [ht]
  rcases h with rfl | rfl | rfl | rfl
  · simp [e1, e2, e7, e8, e9]
  · simp [m1, m2, m7, m8, m9]
  · simp [f1, f2, f7, f8, f9]
  · simp [s1, s2, s7, s8, s9]

/-- C11: a line whose first token is not a vocabulary command (compared
exactly, case included), and a line that consists of the single token enable,
mode, frame or seed, is rejected: the only effect is the generic
unknown/usage notice; no register is accessed and the shadow mode and enable
keep their values. -/
theorem C11_rejected_lines (w : Nat) (hw : Hw) (line t0 : List Char)
    (rest : List (List Char)) (s : State) (ht : strtokAll line [] = t0 :: rest)
    (h : t0 ∉ vocabulary ∨ (t0 ∈ argCommands ∧ rest = [])) :
    (handle_line w hw line s).trace = s.trace ++ [Event.print Msg.unknown_usage]
      ∧ writes (handle_line w hw line s).trace = writes s.trace
      ∧ (handle_line w hw line s).g_mode = s.g_mode
      ∧ (handle_line w hw line s).g_enable = s.g_enable := by
  have key : handle_line w hw line s = xil_printf Msg.unknown_usage s := by
    rcases h with h | ⟨h, hr⟩
    · exact handle_line_unknown w hw line t0 rest s ht h
    · rw [hr] at ht
      exact handle_line_missing_arg w hw line t0 s ht h
  rw [key]
  refine ⟨rfl, ?_, rfl, rfl⟩
  exact writes_emit_other _ s (by intro off v hv; cases hv)

/-- C11 at the line `Help` (wrong case) from the initial state. -/
theorem C11_rejected_lines_witness :
    strtokAll "Help".toList [] = "Help".toList :: []
      ∧ ("Help".toList ∉ vocabulary ∨ ("Help".toList ∈ argCommands ∧ ([] : List (List Char)) = []))
      ∧ (handle_line 64 (fun _ _ => 0) "Help".toList init).trace
          = init.trace ++ [Event.print Msg.unknown_usage]
      ∧ writes (handle_line 64 (fun _ _ => 0) "Help".toList init).trace = writes init.trace
      ∧ (handle_line 64 (fun _ _ => 0) "Help".toList init).g_mode = init.g_mode
      ∧ (handle_line 64 (fun _ _ => 0) "Help".toList init).g_enable = init.g_enable :=
  ⟨by decide, Or.inl (by decide),
    C11_rejected_lines 64 (fun _ _ => 0) "Help".toList "Help".toList [] init (by decide)
      (Or.inl (by decide))⟩

theorem strtokAll_blank (line : List Char) (h : ∀ c ∈ line, isDelim c = true) :
    strtokAll line [] = [] := by
  induction line with
  | nil => rfl
  | cons c cs ih =>
    have hc : isDelim c = true := h c (List.mem_cons_self c cs)
    have hcs : ∀ d ∈ cs, isDelim d = true := fun d hd => h d (List.mem_cons_of_mem c hd)
    simp [strtokAll, hc, ih hcs]

/-- C12: for a line made only of spaces, tabs, carriage returns and line
feeds, the empty line included, dispatch returns the state as it was: nothing
is printed, no register is read or written, the shadow state is unchanged. -/
theorem C12_blank_line_is_silent (w : Nat) (hw : Hw) (line : List Char) (s : State)
    (h : ∀ c ∈ line, c = ' ' ∨ c = '\t' ∨ c = '\r' ∨ c = '\n') :
    handle_line w hw line s = s := by
  have hb : strtokAll line [] = [] := by
    apply strtokAll_blank
    intro c hc
    rcases h c hc with rfl | rfl | rfl | rfl <;> decide
  unfold handle_line
  rw [hb]
  simp

/-- C12 at the line of a space, a tab and a space, and at the empty line. -/
theorem C12_blank_line_is_silent_witness :
    (∀ c ∈ " \t ".toList, c = ' ' ∨ c = '\t' ∨ c = '\r' ∨ c = '\n')
      ∧ handle_line 64 (fun _ _ => 0) " \t ".toList init = init :=
  ⟨by decide,
    C12_blank_line_is_silent 64 (fun _ _ => 0) " \t ".toList init (by decide)⟩

/-! ## `enable` and `seed` -/

theorem handle_line_enable (w : Nat) (hw : Hw) (line a : List Char) (rest : List (List Char))
    (s : State) (ht : strtokAll line [] = "enable".toList :: a :: rest) :
    handle_line w hw line s
      = print_status hw (prbs_enable (strtoul w a 0 % 2 ^ 32) s) := by
  unfold handle_line
  rw [ht]
  have h1 : "enable".toList ≠ "help".toList := by decide
  have h2 : "enable".toList ≠ "status".toList := by decide
  simp [h1, h2]

theorem handle_line_seed (w : Nat) (hw : Hw) (line a : List Char) (rest : List (List Char))
    (s : State) (ht : strtokAll line [] = "seed".toList :: a :: rest) :
    handle_line w hw line s = print_status hw (prbs_set_seed (parse_u32 w a) s) := by
  unfold handle_line
  rw [ht]
  have h1 : "seed".toList ≠ "help".toList := by decide
  have h2 : "seed".toList ≠ "status".toList := by decide
  have h3 : "seed".toList ≠ "enable".toList := by decide
  have h4 : "seed".toList ≠ "mode".toList := by decide
  have h5 : "seed".toList ≠ "frame".toList := by decide
  simp [h1, h2, h3, h4, h5]

theorem ctrl_word_bit0 (en mode swr clr : Nat) :
    bit (ctrl_word en mode swr clr) 0 = if en = 0 then 0 else 1 := by
  have hm : CTRL_MODE mode % 2 = 0 := by
    unfold CTRL_MODE CTRL_MODE_SH
    rw [Nat.shiftLeft_eq]
    omega
  have key : ∀ a b : Nat, (a ||| b) % 2 = if a % 2 = 0 ∧ b % 2 = 0 then 0 else 1 := by
    intro a b
    have h := Nat.testBit_lor a b 0
    simp only [Nat.testBit_zero] at h
    rcases Nat.mod_two_eq_zero_or_one a with ha | ha <;>
      rcases Nat.mod_two_eq_zero_or_one b with hb | hb <;>
      rcases Nat.mod_two_eq_zero_or_one (a ||| b) with hab | hab <;>
      simp [ha, hb, hab] at h ⊢
  unfold bit ctrl_word
  rw [pow_zero, Nat.div_one, key, key, key, hm]
  by_cases he : en = 0 <;> by_cases hs : swr = 0 <;> by_cases hc : clr = 0 <;>
    simp [he, hs, hc, CTRL_ENABLE, CTRL_SW_RESET, CTRL_CLEAR]

/-- C13: with a 64-bit `unsigned long` the code departs from the claim. The
argument of `enable` is converted to a 32-bit `unsigned` before `prbs_enable`
tests it, so the line `enable 4294967296`, whose argument denotes a nonzero
number, sets shadow enable to 0 and writes a CTRL word with enable = 0, where
the claim requires 1. -/
theorem C13_enable_two_pow_32_disables :
    numeralValue "4294967296".toList = some 4294967296
      ∧ (handle_line 64 (fun _ _ => 0) "enable 4294967296".toList main_init.st).g_enable = 0
      ∧ writes (handle_line 64 (fun _ _ => 0) "enable 4294967296".toList main_init.st).trace
        = writes main_init.st.trace ++ [(REG_CTRL, 0x30)]
      ∧ bit 0x30 0 = 0 := by
  decide

/-- What the `enable` line computes for every unsigned numeral `n` within the
range of `unsigned long`: shadow enable is 1 exactly when `n mod 2^32` is
nonzero, so the claimed rule (1 exactly when `n` is nonzero) holds for all
such `n` except the nonzero multiples of 2^32. -/
theorem enable_numeral_mod (w : Nat) (hw : Hw) (line a : List Char)
    (rest : List (List Char)) (n : Nat) (s : State)
    (ht : strtokAll line [] = "enable".toList :: a :: rest)
    (ha : numeralValue a = some n) (hn : n < 2 ^ w) :
    (handle_line w hw line s).g_enable = (if n % 2 ^ 32 = 0 then 0 else 1) := by
  rw [handle_line_enable w hw line a rest s ht, (print_status_shadow hw _).2,
    strtoul_numeral w a n ha hn]
  generalize n % 2 ^ 32 = x
  by_cases hx : x = 0 <;> simp [prbs_enable, write_ctrl, wr, hx]

/-- For an `enable` line whose argument is an unsigned numeral of base
auto-detection denoting `n`, with `n < 2^32` or `n > ULONG_MAX`, shadow enable
becomes 1 when `n` is nonzero and 0 when `n` is zero, shadow mode is kept, and
the only register store is a CTRL word with that enable bit. -/
theorem enable_numeral_in_range (w : Nat) (hw : Hw) (line a : List Char)
    (rest : List (List Char)) (n : Nat) (s : State) (h32 : 32 ≤ w)
    (ht : strtokAll line [] = "enable".toList :: a :: rest)
    (ha : numeralValue a = some n) (hr : n < 2 ^ 32 ∨ 2 ^ w ≤ n) :
    (handle_line w hw line s).g_enable = (if n = 0 then 0 else 1)
      ∧ (handle_line w hw line s).g_mode = s.g_mode
      ∧ ∃ v, writes (handle_line w hw line s).trace = writes s.trace ++ [(REG_CTRL, v)]
          ∧ bit v 0 = if n = 0 then 0 else 1 := by
  have hx : (strtoul w a 0 % 2 ^ 32 = 0) ↔ n = 0 := by
    rcases hr with hr | hr
    · rw [small_numeral w h32 a n ha hr]
    · rw [strtoul_numeral_sat w a n ha hr, ulong_max_low w h32]
      have hp := Nat.two_pow_pos w
      constructor
      · intro h; norm_num at h
      · intro h; omega
  rw [handle_line_enable w hw line a rest s ht]
  generalize strtoul w a 0 % 2 ^ 32 = x at hx
  refine ⟨?_, rfl, ctrl_word (if x ≠ 0 then 1 else 0) s.g_mode 0 0, ?_, ?_⟩
  · rw [(print_status_shadow hw _).2]
    by_cases hn : n = 0
    · simp [prbs_enable, write_ctrl, wr, hx.2 hn, hn]
    · have : x ≠ 0 := fun h => hn (hx.1 h)
      simp [prbs_enable, write_ctrl, wr, this, hn]
  · rw [print_status_writes]
    simp [prbs_enable, write_ctrl, wr, writes_append, writes]
  · rw [ctrl_word_bit0]
    by_cases hn : n = 0
    · simp [hx.2 hn, hn]
    · have : x ≠ 0 := fun h => hn (hx.1 h)
      simp [this, hn]

/-- The line `enable 0x10` for a 64-bit `unsigned long`: enable becomes 1. -/
theorem enable_numeral_in_range_example :
    (handle_line 64 (fun _ _ => 0) "enable 0x10".toList init).g_enable = 1 :=
  (enable_numeral_in_range 64 (fun _ _ => 0) "enable 0x10".toList "0x10".toList [] 16 init
    (by decide) (by decide) (by decide) (Or.inl (by norm_num))).1

theorem strtoul_dec (w : Nat) (a : List Char) (hne : a ≠ [])
    (hd : a.all (isDigitOf 10) = true) (hv : numVal 10 a < 2 ^ w) :
    strtoul w a 10 = numVal 10 a := by
  match a, hne, hd, hv with
  | c :: r, _, hd, hv =>
    have hall := hd
    simp only [List.all_cons, Bool.and_eq_true] at hall
    obtain ⟨d, hdv, _⟩ := isDigitOf_digitVal hall.1
    have hp := digit_head_plain c r (by rw [hdv]; simp)
    have hb : pickBase 10 (c :: r) = (10, c :: r) := by simp [pickBase]
    rw [strtoul_plain w _ 10 hp.1 hp.2, hb]
    simp only
    rw [accDigits_all 10 _ 0 hd]
    have hn : ¬ (numVal 10 (c :: r) > 2 ^ w - 1) := by omega
    exact if_neg hn

theorem strtoul_hex (w : Nat) (x : Char) (h : List Char) (hx : x = 'x' ∨ x = 'X')
    (hd : h.all (isDigitOf 16) = true) (hv : numVal 16 h < 2 ^ w) :
    strtoul w ('0' :: x :: h) 16 = numVal 16 h := by
  have hp := digit_head_plain '0' (x :: h) (by decide)
  have hb : pickBase 16 ('0' :: x :: h) = (16, h) := by
    rcases hx with rfl | rfl <;> simp [pickBase]
  rw [strtoul_plain w _ 16 hp.1 hp.2, hb]
  simp only
  rw [accDigits_all 16 _ 0 hd]
  have hn : ¬ (numVal 16 h > 2 ^ w - 1) := by omega
  exact if_neg hn

/-- `parse_u32` reads the `seed` argument as the specification says. -/
theorem parse_u32_seedValue (w : Nat) (a : List Char) (v : Nat)
    (h : seedValue a = some v) (hv : v < 2 ^ w) : parse_u32 w a = v % 2 ^ 32 := by
  unfold seedValue at h
  unfold parse_u32
  split at h
  · rename_i hc
    split at h
    · rename_i hh
      simp only [Option.some.injEq] at h
      subst h
      match a, hc, hh, hv with
      | c :: x :: r, hc, hh, hv =>
        simp only [List.head?_cons, Option.some.injEq, List.tail_cons] at hc
        obtain ⟨rfl, hx⟩ := hc
        have hx2 : x = 'x' ∨ x = 'X' := hx
        have hcond : ('0' :: x :: r).getD 0 '\x00' = '0'
            ∧ (('0' :: x :: r).getD 1 '\x00' = 'x' ∨ ('0' :: x :: r).getD 1 '\x00' = 'X') := by
          simpa using hx2
        rw [if_pos hcond, strtoul_hex w x r hx2 hh.2 hv]
        rfl
    · simp at h
  · rename_i hc
    split at h
    · rename_i hh
      simp only [Option.some.injEq] at h
      subst h
      have hcond : ¬ (a.getD 0 '\x00' = '0'
          ∧ (a.getD 1 '\x00' = 'x' ∨ a.getD 1 '\x00' = 'X')) := by
        intro hg
        apply hc
        match a, hg with
        | [], hg => simp at hg
        | [c], hg =>
          simp only [List.getD_cons_zero, List.getD_cons_succ, List.getD_nil] at hg
          have e1 : '\x00' ≠ 'x' := by decide
          have e2 : '\x00' ≠ 'X' := by decide
          rcases hg.2 with h | h
          · exact absurd h e1
          · exact absurd h e2
        | c :: x :: r, hg => simpa using hg
      rw [if_neg hcond, strtoul_dec w a hh.1 hh.2 hv]
    · simp at h

theorem seed_store (w : Nat) (hw : Hw) (line a : List Char) (rest : List (List Char))
    (v : Nat) (s : State) (h32 : 32 ≤ w)
    (ht : strtokAll line [] = "seed".toList :: a :: rest)
    (ha : seedValue a = some v) (hv : v < 2 ^ 32) :
    writes (handle_line w hw line s).trace
      = writes s.trace ++ [(REG_SEED, v &&& 0x7FFFFFFF)] := by
  have hle : 2 ^ 32 ≤ 2 ^ w := Nat.pow_le_pow_right (by norm_num) h32
  rw [handle_line_seed w hw line a rest s ht, print_status_writes,
    parse_u32_seedValue w a v ha (by omega), Nat.mod_eq_of_lt hv]
  simp only [prbs_set_seed, wr, writes_emit_wr]

/-- C14: the `seed` argument is read as hexadecimal digits when it starts with
`0x` or `0X` and as decimal digits otherwise (a leading 0 does not select
octal); when the number `v` so denoted is below 2^32, the only register store
of the line is `v AND 0x7FFFFFFF` to SEED. In particular `seed 010` stores 10
and `seed 0x10` stores 16. -/
theorem C14_seed_hex_or_decimal (w : Nat) (hw : Hw) (line a : List Char)
    (rest : List (List Char)) (v : Nat) (s : State) (h32 : 32 ≤ w)
    (ht : strtokAll line [] = "seed".toList :: a :: rest)
    (ha : seedValue a = some v) (hv : v < 2 ^ 32) :
    writes (handle_line w hw line s).trace
        = writes s.trace ++ [(REG_SEED, v &&& 0x7FFFFFFF)]
      ∧ writes (handle_line w hw "seed 010".toList s).trace
        = writes s.trace ++ [(REG_SEED, 10)]
      ∧ writes (handle_line w hw "seed 0x10".toList s).trace
        = writes s.trace ++ [(REG_SEED, 16)]
      ∧ writes (handle_line w hw "seed 0X10".toList s).trace
        = writes s.trace ++ [(REG_SEED, 16)] := by
  refine ⟨seed_store w hw line a rest v s h32 ht ha hv, ?_, ?_, ?_⟩
  · exact seed_store w hw "seed 010".toList "010".toList [] 10 s h32 (by decide) (by decide)
      (by norm_num)
  · exact seed_store w hw "seed 0x10".toList "0x10".toList [] 16 s h32 (by decide) (by decide)
      (by norm_num)
  · exact seed_store w hw "seed 0X10".toList "0X10".toList [] 16 s h32 (by decide) (by decide)
      (by norm_num)

/-- C14 at the line `seed 0xFFFFFFFF` for a 64-bit `unsigned long`: the value
stored is 0x7FFFFFFF. -/
theorem C14_seed_hex_or_decimal_witness :
    32 ≤ 64
      ∧ strtokAll "seed 0xFFFFFFFF".toList [] = "seed".toList :: "0xFFFFFFFF".toList :: []
      ∧ seedValue "0xFFFFFFFF".toList = some 0xFFFFFFFF ∧ 0xFFFFFFFF < 2 ^ 32
      ∧ writes (handle_line 64 (fun _ _ => 0) "seed 0xFFFFFFFF".toList init).trace
          = writes init.trace ++ [(REG_SEED, 0xFFFFFFFF &&& 0x7FFFFFFF)]
      ∧ writes (handle_line 64 (fun _ _ => 0) "seed 010".toList init).trace
          = writes init.trace ++ [(REG_SEED, 10)]
      ∧ writes (handle_line 64 (fun _ _ => 0) "seed 0x10".toList init).trace
          = writes init.trace ++ [(REG_SEED, 16)]
      ∧ writes (handle_line 64 (fun _ _ => 0) "seed 0X10".toList init).trace
          = writes init.trace ++ [(REG_SEED, 16)] :=
  ⟨by decide, by decide, by decide, by norm_num,
    C14_seed_hex_or_decimal 64 (fun _ _ => 0) "seed 0xFFFFFFFF".toList "0xFFFFFFFF".toList []
      0xFFFFFFFF init (by decide) (by decide) (by decide) (by norm_num)⟩

/-! ## The line buffer -/

theorem ofNat_ne_nul (n : Nat) (h0 : n ≠ 0) (h : n < 256) : Char.ofNat n ≠ '\x00' := by
  intro e
  have hv : n.isValidChar := Or.inl (by omega)
  have e2 : (Char.ofNat n).toNat = 0 := by rw [e]; rfl
  unfold Char.ofNat at e2
  rw [dif_pos hv] at e2
  simp [Char.ofNatAux, Char.toNat, UInt32.toNat] at e2
  omega

theorem feed_ordinary (w : Nat) (hw : Hw) (c : Nat) (m : Cli) (hc : isOrdinary c = true) :
    feed w hw c m = if m.buf.length < 95 then
        { m with st := xil_printf (Msg.echo c) m.st, buf := m.buf ++ [Char.ofNat (c % 256)] }
      else m := by
  simp only [isOrdinary, Bool.and_eq_true, bne_iff_ne, ne_eq] at hc
  obtain ⟨⟨⟨h13, h10⟩, h7f⟩, h08⟩ := hc
  unfold feed
  rw [if_neg (by rintro (h | h) <;> contradiction),
    if_neg (by rintro (h | h) <;> contradiction)]

theorem drain_ordinary (w : Nat) (hw : Hw) (bs : List Nat) (m : Cli)
    (h : ∀ b ∈ bs, isOrdinary b = true) :
    (drain w hw bs m).buf
        = m.buf ++ (bs.take (95 - m.buf.length)).map (fun b => Char.ofNat (b % 256))
      ∧ (drain w hw bs m).st.trace
        = m.st.trace ++ (bs.take (95 - m.buf.length)).map (fun b => Event.print (Msg.echo b))
      ∧ (drain w hw bs m).st.g_mode = m.st.g_mode
      ∧ (drain w hw bs m).st.g_enable = m.st.g_enable
      ∧ (drain w hw bs m).led = m.led
      ∧ (drain w hw bs m).printed_running = m.printed_running := by
  induction bs generalizing m with
  | nil => simp [drain]
  | cons c t ih =>
    have hc := h c (List.mem_cons_self c t)
    have ht : ∀ b ∈ t, isOrdinary b = true := fun b hb => h b (List.mem_cons_of_mem c hb)
    have step : drain w hw (c :: t) m = drain w hw t (feed w hw c m) := rfl
    rw [step, feed_ordinary w hw c m hc]
    by_cases hl : m.buf.length < 95
    · rw [if_pos hl]
      obtain ⟨k, hk⟩ : ∃ k, 95 - m.buf.length = k + 1 := ⟨95 - m.buf.length - 1, by omega⟩
      have ih2 := ih { m with st := xil_printf (Msg.echo c) m.st,
                              buf := m.buf ++ [Char.ofNat (c % 256)] } ht
      have hk2 : 95 - (m.buf ++ [Char.ofNat (c % 256)]).length = k := by
        simp only [List.length_append, List.length_singleton]; omega
      simp only [hk2] at ih2
      rw [hk]
      simpa [List.take, xil_printf] using ih2
    · rw [if_neg hl]
      have h0 : 95 - m.buf.length = 0 := by omega
      have ih2 := ih m ht
      rw [h0] at ih2 ⊢
      simpa using ih2

theorem feed_buf_le (w : Nat) (hw : Hw) (c : Nat) (m : Cli) (h : m.buf.length ≤ 95) :
    (feed w hw c m).buf.length ≤ 95 := by
  unfold feed
  by_cases h1 : c = 13 ∨ c = 10
  · rw [if_pos h1]; simp
  rw [if_neg h1]
  by_cases h2 : c = 0x7F ∨ c = 0x08
  · rw [if_pos h2]
    by_cases h3 : m.buf.length ≠ 0
    · rw [if_pos h3]; simp; omega
    · rw [if_neg h3]; exact h
  rw [if_neg h2]
  by_cases h4 : m.buf.length < 96 - 1
  · rw [if_pos h4]; simp; omega
  · rw [if_neg h4]; exact h

theorem drain_buf_le (w : Nat) (hw : Hw) (input : List Nat) (m : Cli)
    (h : m.buf.length ≤ 95) : (drain w hw input m).buf.length ≤ 95 := by
  unfold drain
  induction input generalizing m with
  | nil => exact h
  | cons c t ih => exact ih _ (feed_buf_le w hw c m h)

theorem poll_status_buf (hw : Hw) (m : Cli) : (poll_status hw m).buf = m.buf := by
  unfold poll_status
  simp only
  split_ifs <;> rfl

theorem run_snoc (w : Nat) (hw : Hw) (inputs : List (List Nat)) (input : List Nat) :
    run w hw (inputs ++ [input]) = poll w hw input (run w hw inputs) := by
  simp [run, List.foldl_append]

theorem run_buf_le (w : Nat) (hw : Hw) (inputs : List (List Nat)) :
    (run w hw inputs).buf.length ≤ 95 := by
  induction inputs using List.reverseRecOn with
  | nil => simp [run, main_init]
  | append_singleton l i ih =>
    rw [run_snoc, poll, poll_status_buf]
    exact drain_buf_le w hw i _ ih

theorem cstr_no_nul (buf : List Char) (h : ∀ c ∈ buf, c ≠ '\x00') : cstr buf = buf := by
  unfold cstr
  rw [List.takeWhile_eq_self_iff]
  intro c hc
  simpa using h c hc

set_option maxRecDepth 20000 in
/-- C15 fails as stated in its last part: after the 100 ordinary bytes
`h e l p NUL a ... a` the buffer holds the first 95 of them, but the buffer
is handed to `handle_line` as a C string, so the line dispatched on the next
terminator is `help`, not those 95 bytes (which are no command). -/
theorem C15_counterexample :
    (∀ b ∈ [104, 101, 108, 112, 0] ++ List.replicate 95 97, isOrdinary b = true)
      ∧ (drain 64 (fun _ _ => 0) ([104, 101, 108, 112, 0] ++ List.replicate 95 97) main_init).buf
        = (([104, 101, 108, 112, 0] ++ List.replicate 95 97).take 95).map
            (fun b => Char.ofNat (b % 256))
      ∧ cstr (drain 64 (fun _ _ => 0) ([104, 101, 108, 112, 0] ++ List.replicate 95 97)
          main_init).buf = "help".toList
      ∧ (feed 64 (fun _ _ => 0) 13
          (drain 64 (fun _ _ => 0) ([104, 101, 108, 112, 0] ++ List.replicate 95 97)
            main_init)).st
        = xil_printf Msg.prompt (print_help (xil_printf Msg.newline
            (drain 64 (fun _ _ => 0) ([104, 101, 108, 112, 0] ++ List.replicate 95 97)
              main_init).st))
      ∧ handle_line 64 (fun _ _ => 0)
          ((([104, 101, 108, 112, 0] ++ List.replicate 95 97).take 95).map
            (fun b => Char.ofNat (b % 256))) init
        = xil_printf Msg.unknown_usage init := by
  decide

/-- C15 (amended): the buffered length never exceeds 95, at the end of an
iteration and after any part of an iteration's input. After ordinary bytes
`bs` are pushed into an empty buffer the content is the first 95 of them, each
of these is echoed and the later ones are dropped without echo; when none of
the retained bytes is NUL, the line dispatched on the next terminator (CR or
LF) is exactly those bytes, and the buffer is empty afterwards. -/
theorem C15_line_buffer_bound (w : Nat) (hw : Hw) (inputs : List (List Nat))
    (input bs : List Nat) (m : Cli) (hm : m.buf = [])
    (ho : ∀ b ∈ bs, isOrdinary b = true) (hn : ∀ b ∈ bs.take 95, b % 256 ≠ 0) :
    (run w hw inputs).buf.length ≤ 95
      ∧ (drain w hw input (heartbeat (run w hw inputs))).buf.length ≤ 95
      ∧ (drain w hw bs m).buf = (bs.take 95).map (fun b => Char.ofNat (b % 256))
      ∧ (drain w hw bs m).st.trace
        = m.st.trace ++ (bs.take 95).map (fun b => Event.print (Msg.echo b))
      ∧ (feed w hw 13 (drain w hw bs m)).st
        = xil_printf Msg.prompt (handle_line w hw
            ((bs.take 95).map (fun b => Char.ofNat (b % 256)))
            (xil_printf Msg.newline (drain w hw bs m).st))
      ∧ (feed w hw 10 (drain w hw bs m)).st
        = xil_printf Msg.prompt (handle_line w hw
            ((bs.take 95).map (fun b => Char.ofNat (b % 256)))
            (xil_printf Msg.newline (drain w hw bs m).st))
      ∧ (feed w hw 13 (drain w hw bs m)).buf = []
      ∧ (feed w hw 10 (drain w hw bs m)).buf = [] := by
  have hd := drain_ordinary w hw bs m ho
  rw [hm] at hd
  simp only [List.length_nil, Nat.sub_zero, List.nil_append] at hd
  have hc : cstr (drain w hw bs m).buf = (bs.take 95).map (fun b => Char.ofNat (b % 256)) := by
    rw [cstr_no_nul _ ?_, hd.1]
    rw [hd.1]
    intro c hc
    obtain ⟨b, hb, rfl⟩ := List.mem_map.1 hc
    exact ofNat_ne_nul (b % 256) (hn b hb) (Nat.mod_lt _ (by norm_num))
  refine ⟨run_buf_le w hw inputs, drain_buf_le w hw input _ (run_buf_le w hw inputs),
    hd.1, hd.2.1, ?_, ?_, ?_, ?_⟩
  · simp [feed, hc]
  · simp [feed, hc]
  · simp [feed]
  · simp [feed]

/-- The amended C15 at 100 letters `a` pushed right after start-up. -/
theorem C15_line_buffer_bound_witness :
    main_init.buf = [] ∧ (∀ b ∈ List.replicate 100 97, isOrdinary b = true)
      ∧ (∀ b ∈ (List.replicate 100 97).take 95, b % 256 ≠ 0)
      ∧ (drain 64 (fun _ _ => 0) (List.replicate 100 97) main_init).buf
        = ((List.replicate 100 97).take 95).map (fun b => Char.ofNat (b % 256))
      ∧ (feed 64 (fun _ _ => 0) 13 (drain 64 (fun _ _ => 0) (List.replicate 100 97)
          main_init)).buf = [] :=
  have h := C15_line_buffer_bound 64 (fun _ _ => 0) [] [] (List.replicate 100 97) main_init rfl
    (by intro b hb; rw [List.eq_of_mem_replicate hb]; rfl)
    (by intro b hb; rw [List.eq_of_mem_replicate (List.mem_of_mem_take hb)]; decide)
  ⟨rfl, by intro b hb; rw [List.eq_of_mem_replicate hb]; rfl,
    by intro b hb; rw [List.eq_of_mem_replicate (List.mem_of_mem_take hb)]; decide,
    h.2.2.1, h.2.2.2.2.2.2.1⟩

/-- C16: a backspace or delete byte (0x08 or 0x7F) pushed into an empty buffer
changes nothing at all, so the buffer stays empty and nothing is echoed;
pushed into a buffer of `n > 0` bytes it keeps exactly the first `n - 1` of
them and the only output is the move-back, blank, move-back echo. -/
theorem C16_backspace (w : Nat) (hw : Hw) (c : Nat) (m : Cli) (hc : c = 0x08 ∨ c = 0x7F) :
    (if m.buf = [] then feed w hw c m = m
      else (feed w hw c m).buf = m.buf.take (m.buf.length - 1)
        ∧ (feed w hw c m).st.trace = m.st.trace ++ [Event.print Msg.bs_echo]
        ∧ (feed w hw c m).st.g_mode = m.st.g_mode
        ∧ (feed w hw c m).st.g_enable = m.st.g_enable
        ∧ (feed w hw c m).led = m.led
        ∧ (feed w hw c m).printed_running = m.printed_running) := by
  have h1 : ¬ (c = 13 ∨ c = 10) := by omega
  have h2 : c = 0x7F ∨ c = 0x08 := by omega
  unfold feed
  rw [if_neg h1, if_pos h2]
  by_cases hb : m.buf = []
  · rw [if_pos hb, if_neg (by simp [hb])]
  · have hl : m.buf.length ≠ 0 := by
      intro h; exact hb (List.length_eq_zero.1 h)
    rw [if_neg hb, if_pos hl]
    refine ⟨?_, rfl, rfl, rfl, rfl, rfl⟩
    simp [List.dropLast_eq_take]

/-- C16 for the byte 0x7F on the empty buffer after start-up. -/
theorem C16_backspace_witness :
    ((0x7F : Nat) = 0x08 ∨ (0x7F : Nat) = 0x7F)
      ∧ feed 64 (fun _ _ => 0) 0x7F main_init = main_init :=
  ⟨Or.inr rfl, by
    have h := C16_backspace 64 (fun _ _ => 0) 0x7F main_init (Or.inr rfl)
    rw [if_pos (show main_init.buf = [] from rfl)] at h
    exact h⟩

/-- The byte 0x08 pushed into a buffer holding `ab` leaves `a`. -/
theorem backspace_nonempty_example :
    (feed 64 (fun _ _ => 0) 0x08 { main_init with buf := "ab".toList }).buf = "a".toList := by
  decide

/-! ## The invariant of the whole program -/

theorem LogInv_emit (e : Event) (s : State) (h : LogInv s) (he : Producible e) :
    LogInv (emit e s) := by
  refine ⟨h.1, h.2.1, ?_⟩
  intro x hx
  rw [emit_trace] at hx
  rcases List.mem_append.1 hx with hx | hx
  · exact h.2.2 x hx
  · rw [List.mem_singleton.1 hx]; exact he

theorem LogInv_printf (m : Msg) (s : State) (h : LogInv s) : LogInv (xil_printf m s) :=
  LogInv_emit _ s h (Producible.print m)

theorem LogInv_rd (hw : Hw) (off : Nat) (s : State) (h : LogInv s) : LogInv (rd hw off s).2 :=
  LogInv_emit _ s h (Producible.rd off _)

theorem LogInv_write_ctrl (swr clr : Nat) (s : State) (h : LogInv s)
    (hs : swr ≤ 1) (hc : clr ≤ 1) : LogInv (write_ctrl s.g_enable s.g_mode swr clr s) :=
  LogInv_emit _ s h (Producible.ctrl _ _ swr clr h.2.1 h.1 hs hc)

theorem LogInv_print_status (hw : Hw) (s : State) (h : LogInv s) :
    LogInv (print_status hw s) := by
  unfold print_status
  exact LogInv_printf _ _ (LogInv_rd _ _ _ (LogInv_rd _ _ _ (LogInv_rd _ _ _
    (LogInv_rd _ _ _ h))))

theorem LogInv_enable (en : Nat) (s : State) (h : LogInv s) : LogInv (prbs_enable en s) := by
  have h1 : LogInv { s with g_enable := if en ≠ 0 then 1 else 0 } :=
    ⟨h.1, by show (if en ≠ 0 then 1 else 0) ≤ 1; split <;> omega, h.2.2⟩
  exact LogInv_write_ctrl 0 0 _ h1 (by omega) (by omega)

theorem LogInv_set_mode (m : Nat) (s : State) (h : LogInv s) :
    LogInv (prbs_set_mode m s) := by
  have h1 : LogInv { s with g_mode := m &&& 3 } :=
    ⟨by show m &&& 3 ≤ 3; rw [and_three]; omega, h.2.1, h.2.2⟩
  exact LogInv_write_ctrl 1 0 _ h1 (by omega) (by omega)

theorem LogInv_reset (s : State) (h : LogInv s) : LogInv (prbs_reset s) :=
  LogInv_write_ctrl 1 0 s h (by omega) (by omega)

theorem LogInv_clear (s : State) (h : LogInv s) : LogInv (prbs_clear s) :=
  LogInv_write_ctrl 0 1 s h (by omega) (by omega)

theorem LogInv_set_frame (n : Nat) (s : State) (h : LogInv s) : LogInv (prbs_set_frame n s) :=
  LogInv_emit _ s h (Producible.frmlen _)

theorem LogInv_set_seed (sd : Nat) (s : State) (h : LogInv s) : LogInv (prbs_set_seed sd s) :=
  LogInv_emit _ s h (Producible.seed _)

theorem LogInv_handle_line (w : Nat) (hw : Hw) (line : List Char) (s : State)
    (h : LogInv s) : LogInv (handle_line w hw line s) := by
  apply handle_line_cases LogInv w hw line s h
  · exact LogInv_printf _ _ h
  · exact LogInv_print_status _ _ h
  · exact fun x => LogInv_print_status _ _ (LogInv_enable _ _ h)
  · exact fun x => LogInv_print_status _ _ (LogInv_set_mode _ _ h)
  · exact fun x => LogInv_print_status _ _ (LogInv_set_frame _ _ h)
  · exact fun x => LogInv_print_status _ _ (LogInv_set_seed _ _ h)
  · exact LogInv_printf _ _ (LogInv_reset _ h)
  · exact LogInv_printf _ _ (LogInv_clear _ h)
  · exact LogInv_printf _ _ (LogInv_emit _ s h Producible.done)
  · exact LogInv_printf _ _ h

theorem LogInv_feed (w : Nat) (hw : Hw) (c : Nat) (m : Cli) (h : LogInv m.st) :
    LogInv (feed w hw c m).st := by
  unfold feed
  split_ifs <;> first
    | exact h
    | exact LogInv_printf _ _ h
    | exact LogInv_printf _ _ (LogInv_handle_line _ _ _ _ (LogInv_printf _ _ h))

theorem LogInv_drain (w : Nat) (hw : Hw) (input : List Nat) (m : Cli) (h : LogInv m.st) :
    LogInv (drain w hw input m).st := by
  unfold drain
  induction input generalizing m with
  | nil => exact h
  | cons c t ih => exact ih _ (LogInv_feed w hw c m h)

theorem LogInv_heartbeat (m : Cli) (h : LogInv m.st) : LogInv (heartbeat m).st :=
  LogInv_emit _ _ (LogInv_emit _ _ h (Producible.usleep _)) (Producible.gpio _ _)

theorem LogInv_poll_status (hw : Hw) (m : Cli) (h : LogInv m.st) :
    LogInv (poll_status hw m).st := by
  unfold poll_status
  simp only
  split_ifs <;> first
    | exact LogInv_rd _ _ _ h
    | exact LogInv_printf _ _ (LogInv_rd _ _ _ h)
    | exact LogInv_printf _ _ (LogInv_emit _ _ (LogInv_rd _ _ _ (LogInv_rd _ _ _ h))
        Producible.done)
    | exact LogInv_printf _ _ (LogInv_emit _ _ (LogInv_rd _ _ _
        (LogInv_printf _ _ (LogInv_rd _ _ _ h))) Producible.done)

theorem LogInv_poll (w : Nat) (hw : Hw) (input : List Nat) (m : Cli) (h : LogInv m.st) :
    LogInv (poll w hw input m).st :=
  LogInv_poll_status hw _ (LogInv_drain w hw input _ (LogInv_heartbeat m h))

theorem LogInv_startup : LogInv (startup init) := by
  unfold startup
  have h0 : LogInv init := ⟨by decide, by decide, by intro e he; cases he⟩
  have h2 := LogInv_emit (Event.gpio GPIO_TRI_OFFSET 0) _ (LogInv_printf Msg.banner _ h0)
    (Producible.gpio _ _)
  have h3 : LogInv { gpio_out GPIO_TRI_OFFSET 0 (xil_printf Msg.banner init) with
      g_mode := 3, g_enable := 1 } := ⟨by decide, by decide, h2.2.2⟩
  have h5 := LogInv_set_frame 256 _ (LogInv_set_seed 1 _ h3)
  exact LogInv_printf _ _ (LogInv_printf _ _ (LogInv_write_ctrl 1 1 _ h5 (by omega) (by omega)))

theorem LogInv_run (w : Nat) (hw : Hw) (inputs : List (List Nat)) :
    LogInv (run w hw inputs).st := by
  induction inputs using List.reverseRecOn with
  | nil => exact LogInv_startup
  | append_singleton l i ih =>
    rw [run_snoc]
    exact LogInv_poll w hw i _ ih

theorem LogInv_lines (w : Nat) (hw : Hw) (lines : List (List Char)) (s : State)
    (h : LogInv s) : LogInv (lines.foldl (fun s l => handle_line w hw l s) s) := by
  induction lines generalizing s with
  | nil => exact h
  | cons l t ih => exact ih _ (LogInv_handle_line w hw l s h)

/-! ## Stores to STATUS -/

/-- Case analysis on the dispatch of a line as in `handle_line_cases`, with
the `doneclr` outcome known to arise only from a first token `doneclr`. -/
theorem handle_line_cases_doneclr (P : State → Prop) (w : Nat) (hw : Hw) (line : List Char)
    (s : State)
    (h0 : P s) (h1 : P (print_help s)) (h2 : P (print_status hw s))
    (h3 : ∀ x, P (print_status hw (prbs_enable x s)))
    (h4 : ∀ x, P (print_status hw (prbs_set_mode x s)))
    (h5 : ∀ x, P (print_status hw (prbs_set_frame x s)))
    (h6 : ∀ x, P (print_status hw (prbs_set_seed x s)))
    (h7 : P (xil_printf Msg.sw_reset (prbs_reset s)))
    (h8 : P (xil_printf Msg.clear_counters (prbs_clear s)))
    (h9 : (strtokAll line []).head? = some "doneclr".toList →
      P (xil_printf Msg.done_cleared (wr REG_STATUS ST_DONE s)))
    (h10 : P (xil_printf Msg.unknown_usage s)) :
    P (handle_line w hw line s) := by
  unfold handle_line
  simp only
  have hhead : ∀ t, (List.take 4 (strtokAll line [])).length ≠ 0 →
      (List.take 4 (strtokAll line [])).getD 0 [] = t → (strtokAll line []).head? = some t := by
    intro t hl hg
    match hh : strtokAll line [] with
    | [] => rw [hh] at hl; simp at hl
    | a :: r => rw [hh] at hg; simpa using hg
  revert hhead
  generalize (List.take 4 (strtokAll line [])) = argv
  intro hhead
  by_cases c0 : argv.length = 0
  · rw [if_pos c0]; exact h0
  rw [if_neg c0]
  by_cases c1 : argv.getD 0 [] = "help".toList
  · rw [if_pos c1]; exact h1
  rw [if_neg c1]
  by_cases c2 : argv.getD 0 [] = "status".toList
  · rw [if_pos c2]; exact h2
  rw [if_neg c2]
  by_cases c3 : argv.getD 0 [] = "enable".toList ∧ argv.length ≥ 2
  · rw [if_pos c3]; exact h3 _
  rw [if_neg c3]
  by_cases c4 : argv.getD 0 [] = "mode".toList ∧ argv.length ≥ 2
  · rw [if_pos c4]; exact h4 _
  rw [if_neg c4]
  by_cases c5 : argv.getD 0 [] = "frame".toList ∧ argv.length ≥ 2
  · rw [if_pos c5]; exact h5 _
  rw [if_neg c5]
  by_cases c6 : argv.getD 0 [] = "seed".toList ∧ argv.length ≥ 2
  · rw [if_pos c6]; exact h6 _
  rw [if_neg c6]
  by_cases c7 : argv.getD 0 [] = "reset".toList
  · rw [if_pos c7]; exact h7
  rw [if_neg c7]
  by_cases c8 : argv.getD 0 [] = "clear".toList
  · rw [if_pos c8]; exact h8
  rw [if_neg c8]
  by_cases c9 : argv.getD 0 [] = "doneclr".toList
  · rw [if_pos c9]; exact h9 (hhead _ c0 c9)
  rw [if_neg c9]
  exact h10

theorem status_writes_append (t u : List Event) :
    status_writes (t ++ u) = status_writes t ++ status_writes u := by
  simp [status_writes, writes_append]

theorem status_writes_emit (e : Event) (s : State)
    (h : ∀ v, e ≠ Event.wr REG_STATUS v) :
    status_writes (emit e s).trace = status_writes s.trace := by
  rw [emit_trace, status_writes_append]
  cases e with
  | wr off v =>
    have ho : off ≠ REG_STATUS := by
      rintro rfl; exact h v rfl
    simp [status_writes, writes, ho]
  | rd off v => simp [status_writes, writes]
  | gpio off v => simp [status_writes, writes]
  | usleep us => simp [status_writes, writes]
  | print m => simp [status_writes, writes]

theorem status_writes_emit_done (s : State) :
    status_writes (emit (Event.wr REG_STATUS ST_DONE) s).trace
      = status_writes s.trace ++ [ST_DONE] := by
  rw [emit_trace, status_writes_append]
  simp [status_writes, writes]

theorem status_writes_printf (m : Msg) (s : State) :
    status_writes (xil_printf m s).trace = status_writes s.trace :=
  status_writes_emit _ s (by intro v hv; cases hv)

theorem status_writes_rd (hw : Hw) (off : Nat) (s : State) :
    status_writes (rd hw off s).2.trace = status_writes s.trace :=
  status_writes_emit _ s (by intro v hv; cases hv)

theorem status_writes_wr (off x : Nat) (s : State) (ho : off ≠ REG_STATUS) :
    status_writes (wr off x s).trace = status_writes s.trace :=
  status_writes_emit _ s (by intro v hv; cases hv; exact ho rfl)

theorem status_writes_print_status (hw : Hw) (s : State) :
    status_writes (print_status hw s).trace = status_writes s.trace := by
  unfold print_status
  simp only [status_writes_printf, status_writes_rd]

theorem status_writes_op (o : Op) (s : State) :
    status_writes (o.apply s).trace = status_writes s.trace := by
  cases o <;>
    exact status_writes_wr _ _ _ (by decide)

theorem status_writes_handle_line (w : Nat) (hw : Hw) (line : List Char) (s : State) :
    status_writes (handle_line w hw line s).trace
      = status_writes s.trace
        ++ (if (strtokAll line []).head? = some "doneclr".toList then [ST_DONE] else []) := by
  by_cases hd : (strtokAll line []).head? = some "doneclr".toList
  · rw [if_pos hd]
    match hh : strtokAll line [], hd with
    | t0 :: rest, hd =>
      simp only [List.head?_cons, Option.some.injEq] at hd
      subst hd
      rw [handle_line_doneclr w hw line rest s hh, status_writes_printf]
      exact status_writes_emit_done s
  · rw [if_neg hd, List.append_nil]
    apply handle_line_cases_doneclr
      (fun s2 => status_writes s2.trace = status_writes s.trace) w hw line s rfl
    · exact status_writes_printf _ _
    · exact status_writes_print_status _ _
    · intro x
      rw [status_writes_print_status]; exact status_writes_op (Op.enable x) s
    · intro x
      rw [status_writes_print_status]; exact status_writes_op (Op.set_mode x) s
    · intro x
      rw [status_writes_print_status]; exact status_writes_op (Op.set_frame x) s
    · intro x
      rw [status_writes_print_status]; exact status_writes_op (Op.set_seed x) s
    · rw [status_writes_printf]; exact status_writes_op Op.reset s
    · rw [status_writes_printf]; exact status_writes_op Op.clear s
    · intro h; exact absurd h hd
    · exact status_writes_printf _ _

theorem status_writes_poll_status (hw : Hw) (m : Cli) :
    status_writes (poll_status hw m).st.trace
      = status_writes m.st.trace
        ++ (if hw m.st.trace.length REG_STATUS % 2 ^ 32 &&& ST_DONE ≠ 0 then [ST_DONE]
            else []) := by
  unfold poll_status
  simp only
  by_cases hdone : (rd hw REG_STATUS m.st).1 &&& ST_DONE ≠ 0
  · have hdone2 : hw m.st.trace.length REG_STATUS % 2 ^ 32 &&& ST_DONE ≠ 0 := hdone
    rw [if_pos hdone, if_pos hdone2]
    by_cases hr : (rd hw REG_STATUS m.st).1 &&& ST_RUNNING ≠ 0 ∧ m.printed_running = 0
    · rw [if_pos hr]
      simp only [status_writes_printf]
      rw [show wr REG_STATUS ST_DONE = emit (Event.wr REG_STATUS ST_DONE) from rfl,
        status_writes_emit_done, status_writes_rd, status_writes_printf, status_writes_rd]
    · rw [if_neg hr]
      simp only [status_writes_printf]
      rw [show wr REG_STATUS ST_DONE = emit (Event.wr REG_STATUS ST_DONE) from rfl,
        status_writes_emit_done, status_writes_rd, status_writes_rd]
  · have hdone2 : ¬ (hw m.st.trace.length REG_STATUS % 2 ^ 32 &&& ST_DONE ≠ 0) := hdone
    rw [if_neg hdone, if_neg hdone2, List.append_nil]
    by_cases hr : (rd hw REG_STATUS m.st).1 &&& ST_RUNNING ≠ 0 ∧ m.printed_running = 0
    · rw [if_pos hr]
      simp only [status_writes_printf, status_writes_rd]
    · rw [if_neg hr]
      simp only [status_writes_rd]

theorem mem_writes (t : List Event) (off v : Nat) :
    (off, v) ∈ writes t ↔ Event.wr off v ∈ t := by
  induction t with
  | nil => simp [writes]
  | cons e t ih =>
    cases e <;> simp [writes, ih]

theorem mem_status_writes (t : List Event) (v : Nat) :
    v ∈ status_writes t ↔ Event.wr REG_STATUS v ∈ t := by
  simp [status_writes, ← mem_writes]

theorem producible_status (v : Nat) (h : Producible (Event.wr REG_STATUS v)) : v = ST_DONE := by
  generalize he : Event.wr REG_STATUS v = e at h
  cases h with
  | rd off x => cases he
  | gpio off x => cases he
  | usleep us => cases he
  | print m => cases he
  | seed x => injection he with h1 h2; exact absurd h1 (by decide)
  | frmlen x => injection he with h1 h2; exact absurd h1 (by decide)
  | done => injection he with h1 h2
  | ctrl en mode swr clr _ _ _ _ => injection he with h1 h2; exact absurd h1 (by decide)

theorem status_writes_heartbeat (m : Cli) :
    status_writes (heartbeat m).st.trace = status_writes m.st.trace := by
  unfold heartbeat gpio_out
  simp only
  rw [status_writes_emit _ _ (by intro v hv; cases hv),
    status_writes_emit _ _ (by intro v hv; cases hv)]

theorem status_writes_feed (w : Nat) (hw : Hw) (c : Nat) (m : Cli) :
    status_writes (feed w hw c m).st.trace
      = status_writes m.st.trace
        ++ (if (c = 13 ∨ c = 10) ∧ (strtokAll (cstr m.buf) []).head? = some "doneclr".toList
            then [ST_DONE] else []) := by
  unfold feed
  by_cases h1 : c = 13 ∨ c = 10
  · rw [if_pos h1]
    simp only
    rw [status_writes_printf, status_writes_handle_line, status_writes_printf]
    by_cases hd : (strtokAll (cstr m.buf) []).head? = some "doneclr".toList
    · rw [if_pos hd, if_pos ⟨h1, hd⟩]
    · rw [if_neg hd, if_neg (fun h => hd h.2)]
  have hcond : ¬ ((c = 13 ∨ c = 10)
      ∧ (strtokAll (cstr m.buf) []).head? = some "doneclr".toList) := fun h => h1 h.1
  rw [if_neg h1, if_neg hcond, List.append_nil]
  by_cases h2 : c = 0x7F ∨ c = 0x08
  · rw [if_pos h2]
    by_cases h3 : m.buf.length ≠ 0
    · rw [if_pos h3]
      exact status_writes_printf _ _
    · rw [if_neg h3]
  rw [if_neg h2]
  by_cases h4 : m.buf.length < 96 - 1
  · rw [if_pos h4]
    exact status_writes_printf _ _
  · rw [if_neg h4]

theorem status_writes_drain (w : Nat) (hw : Hw) (input : List Nat) (m : Cli) :
    status_writes (drain w hw input m).st.trace
      = status_writes m.st.trace
        ++ List.replicate (doneclr_dispatches w hw input m) ST_DONE := by
  induction input generalizing m with
  | nil => simp [drain, doneclr_dispatches]
  | cons c t ih =>
    have step : drain w hw (c :: t) m = drain w hw t (feed w hw c m) := rfl
    have hcons : doneclr_dispatches w hw (c :: t) m
        = (if (c = 13 ∨ c = 10)
              ∧ (strtokAll (cstr m.buf) []).head? = some "doneclr".toList then 1 else 0)
          + doneclr_dispatches w hw t (feed w hw c m) := rfl
    rw [step, ih (feed w hw c m), status_writes_feed, hcons]
    by_cases hc : (c = 13 ∨ c = 10)
        ∧ (strtokAll (cstr m.buf) []).head? = some "doneclr".toList
    · rw [if_pos hc, if_pos hc, List.append_assoc, Nat.add_comm, List.replicate_succ,
        List.singleton_append]
    · rw [if_neg hc, if_neg hc, List.append_nil, Nat.zero_add]

theorem status_writes_poll (w : Nat) (hw : Hw) (input : List Nat) (m : Cli) :
    status_writes (poll w hw input m).st.trace
      = status_writes m.st.trace
        ++ List.replicate (doneclr_dispatches w hw input (heartbeat m)) ST_DONE
        ++ (if polled_status w hw input m &&& ST_DONE ≠ 0 then [ST_DONE] else []) := by
  unfold poll
  rw [status_writes_poll_status, status_writes_drain, status_writes_heartbeat]
  rfl

/-- C17: the done latch is cleared only on request. No controller call
(enable, set_mode, set_frame_length, set_seed, reset, clear_counters), no
status report and no help text stores to STATUS, nor does start-up; a line
stores to STATUS only when its first token is `doneclr` (so a rejected line
never does), and the status polling only when the done bit was read as set;
each of these two stores, hence every store to STATUS in any run of the
program, is the word 0x100, the done bit alone. These are the only stores to
STATUS in the program: the heartbeat stores none, a received byte causes one
only as the terminator of a `doneclr` line, and the stores of a whole
iteration, hence of a whole run, are one per `doneclr` line completed in it
followed by one if its polling read the done bit set. -/
theorem C17_done_cleared_only_on_request (w : Nat) (hw : Hw) (inputs : List (List Nat))
    (line : List Char) (o : Op) (s : State) (m : Cli) (c : Nat) (input : List Nat) :
    status_writes (o.apply s).trace = status_writes s.trace
      ∧ status_writes (print_status hw s).trace = status_writes s.trace
      ∧ status_writes (print_help s).trace = status_writes s.trace
      ∧ status_writes (xil_printf Msg.unknown_usage s).trace = status_writes s.trace
      ∧ status_writes (startup init).trace = []
      ∧ status_writes (handle_line w hw line s).trace
        = status_writes s.trace
          ++ (if (strtokAll line []).head? = some "doneclr".toList then [ST_DONE] else [])
      ∧ status_writes (poll_status hw m).st.trace
        = status_writes m.st.trace
          ++ (if hw m.st.trace.length REG_STATUS % 2 ^ 32 &&& ST_DONE ≠ 0 then [ST_DONE]
              else [])
      ∧ (∀ v ∈ status_writes (run w hw inputs).st.trace, v = 0x100)
      ∧ ST_DONE = 0x100 ∧ (∀ i, bit ST_DONE i = if i = 8 then 1 else 0)
      ∧ status_writes (heartbeat m).st.trace = status_writes m.st.trace
      ∧ status_writes (feed w hw c m).st.trace
        = status_writes m.st.trace
          ++ (if (c = 13 ∨ c = 10)
                ∧ (strtokAll (cstr m.buf) []).head? = some "doneclr".toList
              then [ST_DONE] else [])
      ∧ status_writes (drain w hw input m).st.trace
        = status_writes m.st.trace
          ++ List.replicate (doneclr_dispatches w hw input m) ST_DONE
      ∧ status_writes (poll w hw input m).st.trace
        = status_writes m.st.trace
          ++ List.replicate (doneclr_dispatches w hw input (heartbeat m)) ST_DONE
          ++ (if polled_status w hw input m &&& ST_DONE ≠ 0 then [ST_DONE] else [])
      ∧ status_writes (run w hw []).st.trace = []
      ∧ status_writes (run w hw (inputs ++ [input])).st.trace
        = status_writes (run w hw inputs).st.trace
          ++ List.replicate
              (doneclr_dispatches w hw input (heartbeat (run w hw inputs))) ST_DONE
          ++ (if polled_status w hw input (run w hw inputs) &&& ST_DONE ≠ 0 then [ST_DONE]
              else []) := by
  refine ⟨status_writes_op o s, status_writes_print_status hw s, status_writes_printf _ s,
    status_writes_printf _ s, by decide, status_writes_handle_line w hw line s,
    status_writes_poll_status hw m, ?_, rfl, fun i => bit_two_pow 8 i,
    status_writes_heartbeat m, status_writes_feed w hw c m, status_writes_drain w hw input m,
    status_writes_poll w hw input m, ?_, ?_⟩
  · intro v hv
    rw [mem_status_writes] at hv
    exact producible_status v ((LogInv_run w hw inputs).2.2 _ hv)
  · have h : status_writes main_init.st.trace = [] := by decide
    exact h
  · rw [run_snoc]
    exact status_writes_poll w hw input (run w hw inputs)

/-! ## Notices of the status polling -/

theorem countP_emit (p : Event → Bool) (e : Event) (s : State) :
    List.countP p (emit e s).trace = List.countP p s.trace + (if p e = true then 1 else 0) := by
  rw [emit_trace, List.countP_append]
  by_cases h : p e = true <;> simp [h]

/-- A counting predicate that can only hold of the two notices of the status
polling is not affected by any other event. -/
theorem countP_quiet (p : Event → Bool)
    (hp : ∀ e, p e = true → e = Event.print Msg.running ∨ ∃ bc, e = Event.print (Msg.frame_done bc))
    (e : Event) (s : State) (h1 : e ≠ Event.print Msg.running)
    (h2 : ∀ bc, e ≠ Event.print (Msg.frame_done bc)) :
    List.countP p (emit e s).trace = List.countP p s.trace := by
  rw [countP_emit]
  have : ¬ p e = true := by
    intro h
    rcases hp e h with h | ⟨bc, h⟩
    · exact h1 h
    · exact h2 bc h
  simp [this]

theorem countP_print_status (p : Event → Bool)
    (hp : ∀ e, p e = true → e = Event.print Msg.running ∨ ∃ bc, e = Event.print (Msg.frame_done bc))
    (hw : Hw) (s : State) :
    List.countP p (print_status hw s).trace = List.countP p s.trace := by
  unfold print_status xil_printf rd
  simp only
  rw [countP_quiet p hp _ _ (by intro h; cases h) (by intro bc h; cases h),
    countP_quiet p hp _ _ (by intro h; cases h) (by intro bc h; cases h),
    countP_quiet p hp _ _ (by intro h; cases h) (by intro bc h; cases h),
    countP_quiet p hp _ _ (by intro h; cases h) (by intro bc h; cases h),
    countP_quiet p hp _ _ (by intro h; cases h) (by intro bc h; cases h)]

theorem countP_wr (p : Event → Bool)
    (hp : ∀ e, p e = true → e = Event.print Msg.running ∨ ∃ bc, e = Event.print (Msg.frame_done bc))
    (off v : Nat) (s : State) :
    List.countP p (wr off v s).trace = List.countP p s.trace :=
  countP_quiet p hp _ s (by intro h; cases h) (by intro bc h; cases h)

theorem countP_op (p : Event → Bool)
    (hp : ∀ e, p e = true → e = Event.print Msg.running ∨ ∃ bc, e = Event.print (Msg.frame_done bc))
    (o : Op) (s : State) :
    List.countP p (o.apply s).trace = List.countP p s.trace := by
  cases o <;> exact countP_wr p hp _ _ _

theorem countP_cmd_text (p : Event → Bool)
    (hp : ∀ e, p e = true → e = Event.print Msg.running ∨ ∃ bc, e = Event.print (Msg.frame_done bc))
    (m : Msg) (s : State) (h1 : m ≠ Msg.running) (h2 : ∀ bc, m ≠ Msg.frame_done bc) :
    List.countP p (xil_printf m s).trace = List.countP p s.trace :=
  countP_quiet p hp _ s (by intro h; cases h; exact h1 rfl)
    (by intro bc h; cases h; exact h2 bc rfl)

theorem countP_handle_line (p : Event → Bool)
    (hp : ∀ e, p e = true → e = Event.print Msg.running ∨ ∃ bc, e = Event.print (Msg.frame_done bc))
    (w : Nat) (hw : Hw) (line : List Char) (s : State) :
    List.countP p (handle_line w hw line s).trace = List.countP p s.trace := by
  apply handle_line_cases (fun s2 => List.countP p s2.trace = List.countP p s.trace)
    w hw line s rfl
  · exact countP_cmd_text p hp _ _ (by intro h; cases h) (by intro bc h; cases h)
  · exact countP_print_status p hp _ _
  · intro x; rw [countP_print_status p hp]; exact countP_op p hp (Op.enable x) s
  · intro x; rw [countP_print_status p hp]; exact countP_op p hp (Op.set_mode x) s
  · intro x; rw [countP_print_status p hp]; exact countP_op p hp (Op.set_frame x) s
  · intro x; rw [countP_print_status p hp]; exact countP_op p hp (Op.set_seed x) s
  · rw [countP_cmd_text p hp _ _ (by intro h; cases h) (by intro bc h; cases h)]
    exact countP_op p hp Op.reset s
  · rw [countP_cmd_text p hp _ _ (by intro h; cases h) (by intro bc h; cases h)]
    exact countP_op p hp Op.clear s
  · rw [countP_cmd_text p hp _ _ (by intro h; cases h) (by intro bc h; cases h)]
    exact countP_wr p hp _ _ s
  · exact countP_cmd_text p hp _ _ (by intro h; cases h) (by intro bc h; cases h)

theorem feed_side (w : Nat) (hw : Hw) (c : Nat) (m : Cli) :
    (feed w hw c m).printed_running = m.printed_running ∧ (feed w hw c m).led = m.led := by
  unfold feed
  split_ifs <;> exact ⟨rfl, rfl⟩

theorem countP_feed (p : Event → Bool)
    (hp : ∀ e, p e = true → e = Event.print Msg.running ∨ ∃ bc, e = Event.print (Msg.frame_done bc))
    (w : Nat) (hw : Hw) (c : Nat) (m : Cli) :
    List.countP p (feed w hw c m).st.trace = List.countP p m.st.trace := by
  unfold feed
  by_cases h1 : c = 13 ∨ c = 10
  · rw [if_pos h1]
    simp only
    rw [countP_cmd_text p hp _ _ (by intro h; cases h) (by intro bc h; cases h),
      countP_handle_line p hp,
      countP_cmd_text p hp _ _ (by intro h; cases h) (by intro bc h; cases h)]
  rw [if_neg h1]
  by_cases h2 : c = 0x7F ∨ c = 0x08
  · rw [if_pos h2]
    by_cases h3 : m.buf.length ≠ 0
    · rw [if_pos h3]
      exact countP_cmd_text p hp _ _ (by intro h; cases h) (by intro bc h; cases h)
    · rw [if_neg h3]
  rw [if_neg h2]
  by_cases h4 : m.buf.length < 96 - 1
  · rw [if_pos h4]
    exact countP_cmd_text p hp _ _ (by intro h; cases h) (by intro bc h; cases h)
  · rw [if_neg h4]

theorem countP_drain (p : Event → Bool)
    (hp : ∀ e, p e = true → e = Event.print Msg.running ∨ ∃ bc, e = Event.print (Msg.frame_done bc))
    (w : Nat) (hw : Hw) (input : List Nat) (m : Cli) :
    List.countP p (drain w hw input m).st.trace = List.countP p m.st.trace
      ∧ (drain w hw input m).printed_running = m.printed_running := by
  unfold drain
  induction input generalizing m with
  | nil => exact ⟨rfl, rfl⟩
  | cons c t ih =>
    simp only [List.foldl_cons]
    rw [(ih (feed w hw c m)).1, (ih (feed w hw c m)).2, countP_feed p hp, (feed_side w hw c m).1]
    exact ⟨rfl, rfl⟩

theorem countP_heartbeat (p : Event → Bool)
    (hp : ∀ e, p e = true → e = Event.print Msg.running ∨ ∃ bc, e = Event.print (Msg.frame_done bc))
    (m : Cli) :
    List.countP p (heartbeat m).st.trace = List.countP p m.st.trace := by
  unfold heartbeat gpio_out
  simp only
  rw [countP_quiet p hp _ _ (by intro h; cases h) (by intro bc h; cases h),
    countP_quiet p hp _ _ (by intro h; cases h) (by intro bc h; cases h)]

theorem poll_status_trace (hw : Hw) (m : Cli) :
    (poll_status hw m).st.trace
      = m.st.trace ++ [Event.rd REG_STATUS (hw m.st.trace.length REG_STATUS % 2 ^ 32)]
        ++ (if hw m.st.trace.length REG_STATUS % 2 ^ 32 &&& ST_RUNNING ≠ 0
              ∧ m.printed_running = 0 then [Event.print Msg.running] else [])
        ++ (if hw m.st.trace.length REG_STATUS % 2 ^ 32 &&& ST_DONE ≠ 0 then
              [Event.rd REG_BYTECNT
                  (hw (m.st.trace.length + 1
                      + (if hw m.st.trace.length REG_STATUS % 2 ^ 32 &&& ST_RUNNING ≠ 0
                          ∧ m.printed_running = 0 then 1 else 0)) REG_BYTECNT % 2 ^ 32),
                Event.wr REG_STATUS ST_DONE,
                Event.print (Msg.frame_done
                  (hw (m.st.trace.length + 1
                      + (if hw m.st.trace.length REG_STATUS % 2 ^ 32 &&& ST_RUNNING ≠ 0
                          ∧ m.printed_running = 0 then 1 else 0)) REG_BYTECNT % 2 ^ 32))]
            else []) := by
  unfold poll_status
  simp only
  have e1 : (rd hw REG_STATUS m.st).1 = hw m.st.trace.length REG_STATUS % 2 ^ 32 := rfl
  rw [e1]
  by_cases hr : hw m.st.trace.length REG_STATUS % 2 ^ 32 &&& ST_RUNNING ≠ 0
      ∧ m.printed_running = 0
  · rw [if_pos hr, if_pos hr, if_pos hr]
    by_cases hd : hw m.st.trace.length REG_STATUS % 2 ^ 32 &&& ST_DONE ≠ 0
    · rw [if_pos hd, if_pos hd]
      simp [rd, wr, xil_printf, emit]
    · rw [if_neg hd, if_neg hd]
      simp [rd, wr, xil_printf, emit]
  · rw [if_neg hr, if_neg hr, if_neg hr]
    by_cases hd : hw m.st.trace.length REG_STATUS % 2 ^ 32 &&& ST_DONE ≠ 0
    · rw [if_pos hd, if_pos hd]
      simp [rd, wr, xil_printf, emit]
    · rw [if_neg hd, if_neg hd]
      simp [rd, wr, xil_printf, emit]

theorem poll_status_flag (hw : Hw) (m : Cli) :
    (poll_status hw m).printed_running
      = if hw m.st.trace.length REG_STATUS % 2 ^ 32 &&& ST_RUNNING ≠ 0
          ∧ m.printed_running = 0 then 1
        else m.printed_running := by
  unfold poll_status
  simp only
  have e1 : (rd hw REG_STATUS m.st).1 = hw m.st.trace.length REG_STATUS % 2 ^ 32 := rfl
  rw [e1]
  by_cases hr : hw m.st.trace.length REG_STATUS % 2 ^ 32 &&& ST_RUNNING ≠ 0
      ∧ m.printed_running = 0
  · rw [if_pos hr, if_pos hr]
    split_ifs <;> rfl
  · rw [if_neg hr, if_neg hr]
    split_ifs <;> rfl

theorem and_two_pow_ne_zero (x k : Nat) : x &&& 2 ^ k ≠ 0 ↔ bit x k = 1 := by
  unfold bit
  constructor
  · intro h
    obtain ⟨i, hi⟩ := Nat.ne_zero_implies_bit_true h
    rw [Nat.testBit_and, Nat.testBit_two_pow] at hi
    simp only [Bool.and_eq_true, decide_eq_true_eq] at hi
    obtain ⟨h1, rfl⟩ := hi
    rw [Nat.testBit_to_div_mod] at h1
    simpa using h1
  · intro h e
    have h2 : Nat.testBit (x &&& 2 ^ k) k = true := by
      rw [Nat.testBit_and, Nat.testBit_two_pow, Nat.testBit_to_div_mod]
      simp [h]
    rw [e] at h2
    simp at h2

theorem countFrameDone_eq (t : List Event) : countFrameDone t = List.countP isFrameDone t := by
  unfold countFrameDone
  rw [List.countP_eq_length_filter]

theorem countRunning_eq (t : List Event) :
    countRunning t = List.countP (fun e => e == Event.print Msg.running) t := rfl

theorem isFrameDone_notice (e : Event) (h : isFrameDone e = true) :
    e = Event.print Msg.running ∨ ∃ bc, e = Event.print (Msg.frame_done bc) := by
  cases e with
  | print m =>
    cases m with
    | frame_done bc => exact Or.inr ⟨bc, rfl⟩
    | _ => simp [isFrameDone] at h
  | _ => simp [isFrameDone] at h

theorem isRunning_notice (e : Event) (h : (e == Event.print Msg.running) = true) :
    e = Event.print Msg.running ∨ ∃ bc, e = Event.print (Msg.frame_done bc) :=
  Or.inl (by simpa using h)

theorem countFrameDone_before_poll (w : Nat) (hw : Hw) (input : List Nat) (m : Cli) :
    countFrameDone (before_poll w hw input m).st.trace = countFrameDone m.st.trace := by
  unfold before_poll
  rw [countFrameDone_eq, countFrameDone_eq, (countP_drain _ isFrameDone_notice _ _ _ _).1,
    countP_heartbeat _ isFrameDone_notice]

theorem countRunning_before_poll (w : Nat) (hw : Hw) (input : List Nat) (m : Cli) :
    countRunning (before_poll w hw input m).st.trace = countRunning m.st.trace
      ∧ (before_poll w hw input m).printed_running = m.printed_running := by
  unfold before_poll
  rw [countRunning_eq, countRunning_eq, (countP_drain _ isRunning_notice _ _ _ _).1,
    (countP_drain _ isRunning_notice _ _ _ _).2, countP_heartbeat _ isRunning_notice]
  exact ⟨rfl, rfl⟩

theorem countFrameDone_poll_status (hw : Hw) (m : Cli) :
    countFrameDone (poll_status hw m).st.trace
      = countFrameDone m.st.trace
        + (if hw m.st.trace.length REG_STATUS % 2 ^ 32 &&& ST_DONE ≠ 0 then 1 else 0) := by
  rw [poll_status_trace]
  simp only [countFrameDone, List.filter_append, List.length_append]
  split_ifs <;> simp [isFrameDone, List.filter]

theorem countRunning_poll_status (hw : Hw) (m : Cli) :
    countRunning (poll_status hw m).st.trace
      = countRunning m.st.trace
        + (if hw m.st.trace.length REG_STATUS % 2 ^ 32 &&& ST_RUNNING ≠ 0
            ∧ m.printed_running = 0 then 1 else 0) := by
  rw [poll_status_trace]
  simp only [countRunning, List.count_append]
  split_ifs <;> simp [List.count_cons]

theorem countFrameDone_poll (w : Nat) (hw : Hw) (input : List Nat) (m : Cli) :
    countFrameDone (poll w hw input m).st.trace
      = countFrameDone m.st.trace
        + (if polled_status w hw input m &&& ST_DONE ≠ 0 then 1 else 0) := by
  rw [← countFrameDone_before_poll w hw input m]
  exact countFrameDone_poll_status hw _

/-- C18: in every iteration the status polling, which follows the input
draining, appends to the log one read of STATUS; then, if the once-only
condition holds, the running notice; then, if the done bit (bit 8) of the
value read is set, a read of BYTE_COUNT, the store of the done-bit-only word
0x100 to STATUS and one frame-done notice carrying the byte count just read,
in this order, and nothing else. With the done bit clear the iteration stores
nothing to STATUS and prints no frame-done notice. So the number of frame-done
notices grows by one in an iteration that reads done set and by zero in one
that reads it clear. -/
theorem C18_done_handling (w : Nat) (hw : Hw) (input input2 : List Nat) (m : Cli) :
    (poll w hw input m).st.trace
        = (before_poll w hw input m).st.trace
          ++ [Event.rd REG_STATUS (polled_status w hw input m)]
          ++ (if polled_status w hw input m &&& ST_RUNNING ≠ 0
                ∧ (before_poll w hw input m).printed_running = 0
              then [Event.print Msg.running] else [])
          ++ (if polled_status w hw input m &&& ST_DONE ≠ 0 then
                [Event.rd REG_BYTECNT
                    (hw ((before_poll w hw input m).st.trace.length + 1
                        + (if polled_status w hw input m &&& ST_RUNNING ≠ 0
                            ∧ (before_poll w hw input m).printed_running = 0 then 1 else 0))
                      REG_BYTECNT % 2 ^ 32),
                  Event.wr REG_STATUS 0x100,
                  Event.print (Msg.frame_done
                    (hw ((before_poll w hw input m).st.trace.length + 1
                        + (if polled_status w hw input m &&& ST_RUNNING ≠ 0
                            ∧ (before_poll w hw input m).printed_running = 0 then 1 else 0))
                      REG_BYTECNT % 2 ^ 32))]
              else [])
      ∧ (polled_status w hw input m &&& ST_DONE ≠ 0 ↔ bit (polled_status w hw input m) 8 = 1)
      ∧ status_writes (poll w hw input m).st.trace
        = status_writes (before_poll w hw input m).st.trace
          ++ (if polled_status w hw input m &&& ST_DONE ≠ 0 then [0x100] else [])
      ∧ countFrameDone (poll w hw input m).st.trace
        = countFrameDone m.st.trace
          + (if polled_status w hw input m &&& ST_DONE ≠ 0 then 1 else 0)
      ∧ countFrameDone (poll w hw input2 (poll w hw input m)).st.trace
        = countFrameDone m.st.trace
          + (if polled_status w hw input m &&& ST_DONE ≠ 0 then 1 else 0)
          + (if polled_status w hw input2 (poll w hw input m) &&& ST_DONE ≠ 0 then 1 else 0) := by
  refine ⟨poll_status_trace hw (before_poll w hw input m), and_two_pow_ne_zero _ 8,
    status_writes_poll_status hw (before_poll w hw input m), countFrameDone_poll w hw input m, ?_⟩
  rw [countFrameDone_poll w hw input2, countFrameDone_poll w hw input m]

theorem poll_running (w : Nat) (hw : Hw) (input : List Nat) (m : Cli) :
    countRunning (poll w hw input m).st.trace
        = countRunning m.st.trace
          + (if polled_status w hw input m &&& ST_RUNNING ≠ 0 ∧ m.printed_running = 0 then 1
             else 0)
      ∧ (poll w hw input m).printed_running
        = (if polled_status w hw input m &&& ST_RUNNING ≠ 0 ∧ m.printed_running = 0 then 1
           else m.printed_running) := by
  have hb := countRunning_before_poll w hw input m
  constructor
  · rw [← hb.1, ← hb.2]
    exact countRunning_poll_status hw _
  · rw [← hb.2]
    exact poll_status_flag hw _

/-- The `printed_running` flag is 0 or 1 and equals the number of running
notices printed so far. -/
theorem run_flag_counts (w : Nat) (hw : Hw) (inputs : List (List Nat)) :
    countRunning (run w hw inputs).st.trace = (run w hw inputs).printed_running
      ∧ (run w hw inputs).printed_running ≤ 1 := by
  induction inputs using List.reverseRecOn with
  | nil =>
    have h1 : countRunning main_init.st.trace = main_init.printed_running := by decide
    have h2 : main_init.printed_running ≤ 1 := by decide
    exact ⟨h1, h2⟩
  | append_singleton l i ih =>
    rw [run_snoc, (poll_running w hw i _).1, (poll_running w hw i _).2, ih.1]
    split_ifs with h
    · rw [h.2]; exact ⟨rfl, by omega⟩
    · exact ⟨rfl, ih.2⟩

/-- C19: over any run of the program, whatever STATUS values the hardware
returns, at most one running notice is printed. An iteration prints the notice
exactly when its polled STATUS value has the running bit (bit 0) set and no
notice has been printed before, that is, in the first iteration that reads
running set; the `printed_running` flag then becomes 1 and never returns
to 0. -/
theorem C19_running_notice_once (w : Nat) (hw : Hw) (inputs : List (List Nat))
    (input : List Nat) :
    countRunning (run w hw inputs).st.trace ≤ 1
      ∧ countRunning (run w hw inputs).st.trace = (run w hw inputs).printed_running
      ∧ countRunning (run w hw (inputs ++ [input])).st.trace
        = countRunning (run w hw inputs).st.trace
          + (if polled_status w hw input (run w hw inputs) &&& ST_RUNNING ≠ 0
                ∧ countRunning (run w hw inputs).st.trace = 0 then 1 else 0)
      ∧ (polled_status w hw input (run w hw inputs) &&& ST_RUNNING ≠ 0
          ↔ bit (polled_status w hw input (run w hw inputs)) 0 = 1)
      ∧ (run w hw inputs).printed_running ≤ (run w hw (inputs ++ [input])).printed_running
      ∧ (run w hw (inputs ++ [input])).printed_running
        = (if polled_status w hw input (run w hw inputs) &&& ST_RUNNING ≠ 0 then 1
           else (run w hw inputs).printed_running) := by
  have hf := run_flag_counts w hw inputs
  have hp := poll_running w hw input (run w hw inputs)
  refine ⟨by rw [hf.1]; exact hf.2, hf.1, ?_, and_two_pow_ne_zero _ 0, ?_, ?_⟩
  · rw [run_snoc, hp.1, hf.1]
  · rw [run_snoc, hp.2]
    split_ifs <;> omega
  · rw [run_snoc, hp.2]
    have h2 := hf.2
    by_cases hr : polled_status w hw input (run w hw inputs) &&& ST_RUNNING ≠ 0
    · by_cases h0 : (run w hw inputs).printed_running = 0
      · rw [if_pos ⟨hr, h0⟩, if_pos hr]
      · rw [if_neg (fun h => h0 h.2), if_pos hr]
        omega
    · rw [if_neg (fun h => hr h.1), if_neg hr]

/-! ## The shape of the CTRL words -/

theorem mem_ctrl_writes (t : List Event) (v : Nat) :
    v ∈ ctrl_writes t ↔ Event.wr REG_CTRL v ∈ t := by
  simp [ctrl_writes, ← mem_writes]

theorem ctrl_word_decode (en mode swr clr : Nat) (he : en ≤ 1) (hm : mode ≤ 3) (hs : swr ≤ 1)
    (hc : clr ≤ 1) :
    bit (ctrl_word en mode swr clr) 0 = en ∧ mode_field (ctrl_word en mode swr clr) = mode
      ∧ bit (ctrl_word en mode swr clr) 2 = swr ∧ bit (ctrl_word en mode swr clr) 15 = clr := by
  have f := ctrl_word_fields en mode swr clr hm
  refine ⟨?_, f.2.1, ?_, ?_⟩
  · rw [f.1]; split <;> omega
  · rw [f.2.2.1]; split <;> omega
  · rw [f.2.2.2]; split <;> omega

theorem ctrl_word_mask (en mode swr clr : Nat) (he : en ≤ 1) (hm : mode ≤ 3) (hs : swr ≤ 1)
    (hc : clr ≤ 1) : ctrl_word en mode swr clr &&& 0x8035 = ctrl_word en mode swr clr := by
  interval_cases en <;> interval_cases mode <;> interval_cases swr <;> interval_cases clr <;>
    decide

theorem ctrl_word_shape (en mode swr clr : Nat) (he : en ≤ 1) (hm : mode ≤ 3) (hs : swr ≤ 1)
    (hc : clr ≤ 1) : CtrlShape (ctrl_word en mode swr clr) := by
  have d := ctrl_word_decode en mode swr clr he hm hs hc
  exact ⟨ctrl_word_mask en mode swr clr he hm hs hc, en, mode, swr, clr, he, hm, hs, hc, rfl,
    d.1, d.2.1, d.2.2.1, d.2.2.2⟩

theorem producible_ctrl (v : Nat) (h : Producible (Event.wr REG_CTRL v)) : CtrlShape v := by
  generalize he : Event.wr REG_CTRL v = e at h
  cases h with
  | rd off x => cases he
  | gpio off x => cases he
  | usleep us => cases he
  | print m => cases he
  | seed x => injection he with h1 h2; exact absurd h1 (by decide)
  | frmlen x => injection he with h1 h2; exact absurd h1 (by decide)
  | done => injection he with h1 h2; exact absurd h1 (by decide)
  | ctrl en mode swr clr h1 h2 h3 h4 =>
    injection he with _ hv
    rw [hv]
    exact ctrl_word_shape en mode swr clr h1 h2 h3 h4

/-- C20: in every state the program reaches, through any input (and likewise
after start-up followed by any sequence of command lines), the shadow mode is
at most 3 and the shadow enable at most 1, and every word stored to CTRL has
no bit outside the mask 0x8035 and gives back, field by field, the enable
flag, mode, sw_reset and clear it was assembled from; two such assemblies that
give the same word have the same four components. -/
theorem C20_ctrl_words_well_formed (w : Nat) (hw : Hw) (inputs : List (List Nat))
    (lines : List (List Char)) :
    (run w hw inputs).st.g_mode ≤ 3 ∧ (run w hw inputs).st.g_enable ≤ 1
      ∧ (∀ v ∈ ctrl_writes (run w hw inputs).st.trace, CtrlShape v)
      ∧ (lines.foldl (fun s l => handle_line w hw l s) (startup init)).g_mode ≤ 3
      ∧ (lines.foldl (fun s l => handle_line w hw l s) (startup init)).g_enable ≤ 1
      ∧ (∀ v ∈ ctrl_writes
            (lines.foldl (fun s l => handle_line w hw l s) (startup init)).trace, CtrlShape v)
      ∧ Function.Injective (fun q : Fin 2 × Fin 4 × Fin 2 × Fin 2 =>
          ctrl_word q.1.val q.2.1.val q.2.2.1.val q.2.2.2.val) := by
  have hr := LogInv_run w hw inputs
  have hl := LogInv_lines w hw lines (startup init) LogInv_startup
  refine ⟨hr.1, hr.2.1, ?_, hl.1, hl.2.1, ?_, ?_⟩
  · intro v hv
    exact producible_ctrl v (hr.2.2 _ ((mem_ctrl_writes _ v).1 hv))
  · intro v hv
    exact producible_ctrl v (hl.2.2 _ ((mem_ctrl_writes _ v).1 hv))
  · rintro ⟨en, mode, swr, clr⟩ ⟨en2, mode2, swr2, clr2⟩ he
    simp only at he
    have d := ctrl_word_decode en.val mode.val swr.val clr.val (by omega) (by omega) (by omega)
      (by omega)
    have d2 := ctrl_word_decode en2.val mode2.val swr2.val clr2.val (by omega) (by omega)
      (by omega) (by omega)
    rw [he] at d
    have e1 : en = en2 := Fin.ext (d.1.symm.trans d2.1)
    have e2 : mode = mode2 := Fin.ext (d.2.1.symm.trans d2.2.1)
    have e3 : swr = swr2 := Fin.ext (d.2.2.1.symm.trans d2.2.2.1)
    have e4 : clr = clr2 := Fin.ext (d.2.2.2.symm.trans d2.2.2.2)
    rw [e1, e2, e3, e4]

end PrbsCli
